import Mathlib

/-!
A verification development for the Rush shell (`danbulant/rush`), covering the
hand-rolled language pipeline in `src/parser/`: the runtime `Variable` type
(`vars.rs`), the lexer (`tokens.rs`), the tree builder (`ast.rs`) and the
tree-walking executor (`exec.rs`).  Every definition is a shallow embedding of
the corresponding Rust item; Rust panics (`unwrap`, `todo!`, `panic!`) are
modelled as a distinguished `stuck` outcome, fallible operations return
`Except`/`Option`, and machine integer casts are made explicit.
-/

namespace Rush

/-- Rust `as usize` on a signed integer: on the 64-bit targets the program
supports this is a wrapping cast, i.e. reduction modulo `2 ^ 64`. -/
def intAsUsize (i : Int) : Nat := (i % (2 ^ 64 : Int)).toNat

/-- Rust `as usize` on a `u128` value: truncation modulo `2 ^ 64`. -/
def u128AsUsize (n : Nat) : Nat := n % 2 ^ 64

/-- Accumulating decimal parser over a character list: fails on the first
non-digit character (Rust's `ParseIntError` for an invalid digit). -/
def parseDigitsAux : List Char → Nat → Option Nat
  | [], acc => some acc
  | c :: cs, acc =>
    if c.isDigit then parseDigitsAux cs (acc * 10 + (c.toNat - 48)) else none

/-- Rust `str::parse` for an unsigned integer type whose first invalid value is
`bound`: an optional leading `+`, then at least one decimal digit, and the
value must be below `bound`. -/
def parseUnsigned (bound : Nat) (s : String) : Option Nat :=
  let cs := match s.data with
    | '+' :: rest => rest
    | cs => cs
  match cs with
  | [] => none
  | _ =>
    match parseDigitsAux cs 0 with
    | some n => if n < bound then some n else none
    | none => none

/-- Abstraction of a Rust float primitive (`f32` / `f64`).  The shell observes
a float value in exactly two ways — `to_string` (in `Display for Variable`)
and `as usize` (in `Variable::index`) — so the model carries exactly those two
observations and nothing else. -/
structure RustFloat where
  decimal : String
  asUsize : Nat
deriving DecidableEq, Repr

/-- `anyhow::Result` as used throughout the sources: success or a string
error message. -/
abbrev Res (α : Type) := Except String α

/-- `Variable` from `vars.rs`: the runtime value type of the shell.
`HMap` is modelled as an association list with unique keys (Rust `HashMap`),
the integer payloads as unbounded `Int`/`Nat` (the program never performs
arithmetic on them, only formatting and casts, so overflow never matters). -/
inductive Variable where
  | String : String → Variable
  | I32 : Int → Variable
  | I64 : Int → Variable
  | I128 : Int → Variable
  | U32 : Nat → Variable
  | U64 : Nat → Variable
  | U128 : Nat → Variable
  | F32 : RustFloat → Variable
  | F64 : RustFloat → Variable
  | HMap : List (String × Variable) → Variable
  | Array : List Variable → Variable
  | Bool : Bool → Variable

mutual

/-- `impl Display for Variable` (`vars.rs` lines 23–66): `to_string` of a
runtime variable.  Numbers print in decimal, `Bool` as `true` / `false`,
`HMap` as the fixed token `[Object object]`; an `Array` of length exactly one
prints as its single element, any other `Array` as the space-joined elements
(the `i < len - 1` loop in the source). -/
def Variable.display : Variable → String
  | Variable.String s => s
  | Variable.I32 n => toString n
  | Variable.I64 n => toString n
  | Variable.I128 n => toString n
  | Variable.U32 n => toString n
  | Variable.U64 n => toString n
  | Variable.U128 n => toString n
  | Variable.F32 f => f.decimal
  | Variable.F64 f => f.decimal
  | Variable.Bool b => if b then "true" else "false"
  | Variable.HMap _ => "[Object object]"
  | Variable.Array vars =>
    match vars with
    | [v] => Variable.display v
    | vs => displayJoin vs

/-- The space-joining loop shared by the `Array` arm of `Display` and by
`variables_to_string`: each element's string, with a single space between
consecutive elements. -/
def displayJoin : List Variable → String
  | [] => ""
  | [v] => Variable.display v
  | v :: vs => Variable.display v ++ " " ++ displayJoin vs

end

/-- `variables_to_string` (`vars.rs` lines 68–77): the same space-joining loop,
applied to a list of argument variables. -/
def variables_to_string (vars : List Variable) : String := displayJoin vars

/-- Rust `HashMap::get` on the association-list model of `HMap`. -/
def hmapGet (m : List (String × Variable)) (k : String) : Option Variable :=
  (m.find? (fun p => p.1 == k)).map (fun p => p.2)

/-- `arr.get(i)` followed by the `Some`/`None` match used in every arm of the
`Array` case of `Variable::index`. -/
def arrGet (arr : List Variable) (n : Nat) : Res Variable :=
  match arr.get? n with
  | some val => Except.ok val
  | none => Except.error "Index out of bounds"

/-- `Variable::index` (`vars.rs` lines 79–155).  An `HMap` demands a `String`
key; an `Array` accepts each numeric variant via `as usize` and a `String` via
`parse::<usize>()` (whose parse error propagates through `?`); every other
receiver fails. -/
def Variable.index : Variable → Variable → Res Variable
  | Variable.HMap map, idx =>
    match idx with
    | Variable.String key =>
      match hmapGet map key with
      | some val => Except.ok val
      | none => Except.error "Key not found"
    | _ => Except.error "Cannot index with non-string"
  | Variable.Array arr, idx =>
    match idx with
    | Variable.I32 i => arrGet arr (intAsUsize i)
    | Variable.I64 i => arrGet arr (intAsUsize i)
    | Variable.I128 i => arrGet arr (intAsUsize i)
    | Variable.F32 f => arrGet arr f.asUsize
    | Variable.F64 f => arrGet arr f.asUsize
    | Variable.U32 n => arrGet arr n
    | Variable.U64 n => arrGet arr n
    | Variable.U128 n => arrGet arr (u128AsUsize n)
    | Variable.String s =>
      match parseUnsigned (2 ^ 64) s with
      | some n => arrGet arr n
      | none => Except.error "invalid digit found in string"
    | _ => Except.error "Cannot index with non-integer"
  | _, _ => Except.error "Cannot index unsupported types"

/-- The index an `Array` receiver extracts from an index variable, when any:
numeric variants through their `as usize` casts, strings through
`parse::<usize>`, everything else refused.  This is the specification-side
classification used to characterise `Variable::index`. -/
def numericIndexOf : Variable → Option Nat
  | Variable.I32 i => some (intAsUsize i)
  | Variable.I64 i => some (intAsUsize i)
  | Variable.I128 i => some (intAsUsize i)
  | Variable.F32 f => some f.asUsize
  | Variable.F64 f => some f.asUsize
  | Variable.U32 n => some n
  | Variable.U64 n => some n
  | Variable.U128 n => some (u128AsUsize n)
  | Variable.String s => parseUnsigned (2 ^ 64) s
  | _ => none

/-! ## Lexer (`tokens.rs`) -/

/-- The `Tokens` enum.  `tokens.rs` declares the variants up to
`JobCommandEnd`; `ast.rs` additionally matches on `ArrayStart`, `ArrayEnd` and
`Break` (a newer revision of the lexer), so the model carries the union.  The
`tokenize` function below never produces the three extra variants, exactly as
the `tokens.rs` in the tree never does. -/
inductive Tokens where
  | Space
  | Literal : String → Tokens
  | Let
  | ExportSet
  | StringVariable : String → Bool → Tokens
  | ArrayVariable : String → Bool → Tokens
  | ArrayFunction : String → Tokens
  | StringFunction : String → Tokens
  | ParenthesisStart
  | ParenthesisEnd
  | CommandEnd : Char → Tokens
  | If
  | Else
  | While
  | For
  | Function
  | End
  | SubStart
  | RedirectInto
  | FileRead
  | FileWrite
  | And
  | Or
  | JobCommandEnd
  | ArrayStart
  | ArrayEnd
  | Break
deriving DecidableEq, Repr

/-- `Tokens::detect` (`tokens.rs` lines 31–51): reclassifies a saved literal
string as a keyword or operator token.  The two `CommandEnd` source arms
(`"\n" | ";"`) are written out separately with their first character. -/
def Tokens.detect (str : String) : Tokens :=
  match str with
  | "if" => Tokens.If
  | "while" => Tokens.While
  | "for" => Tokens.For
  | "let" => Tokens.Let
  | " " => Tokens.Space
  | "else" => Tokens.Else
  | "end" => Tokens.End
  | "$(" => Tokens.SubStart
  | "(" => Tokens.ParenthesisStart
  | ")" => Tokens.ParenthesisEnd
  | ">" => Tokens.FileWrite
  | "<" => Tokens.FileRead
  | "|" => Tokens.RedirectInto
  | "\n" => Tokens.CommandEnd '\n'
  | ";" => Tokens.CommandEnd ';'
  | "=" => Tokens.ExportSet
  | _ => Tokens.Literal str

/-- `Tokens::to_str` (`tokens.rs` lines 53–80).  In the source the braced
variable forms print an opening brace on both sides (the closing position also
uses `"{"`); the model reproduces that verbatim. -/
def Tokens.to_str : Tokens → String
  | Tokens.Space => " "
  | Tokens.Literal str => str
  | Tokens.Let => "let"
  | Tokens.StringVariable str b =>
    "$" ++ (if b then "\x7b" else "") ++ str ++ (if b then "\x7b" else "")
  | Tokens.ArrayVariable str b =>
    "@" ++ (if b then "\x7b" else "") ++ str ++ (if b then "\x7b" else "")
  | Tokens.ArrayFunction str => "@" ++ str
  | Tokens.StringFunction str => "$" ++ str
  | Tokens.CommandEnd c => String.mk [c]
  | Tokens.ExportSet => "="
  | Tokens.Function => "function"
  | Tokens.If => "if"
  | Tokens.Else => "else"
  | Tokens.While => "while"
  | Tokens.For => "for"
  | Tokens.End => "end"
  | Tokens.SubStart => "$("
  | Tokens.ParenthesisStart => "("
  | Tokens.ParenthesisEnd => ")"
  | Tokens.RedirectInto => "|"
  | Tokens.FileRead => "<"
  | Tokens.FileWrite => ">"
  | Tokens.And => "&&"
  | Tokens.Or => "||"
  | Tokens.JobCommandEnd => "&"
  | Tokens.ArrayStart => "["
  | Tokens.ArrayEnd => "]"
  | Tokens.Break => "break"

/-- `check_keyword` (`tokens.rs` lines 112–116): true when `keyword` occurs at
character position `i` of `text` AND at least one further character follows it
(the `text_length < i + keyword.len() + 1` guard).  The source measures
`text.len()` in bytes but indexes by `chars()`; the two agree on the ASCII
inputs considered here, and the model uses character counts throughout. -/
def check_keyword (text : List Char) (i : Nat) (keyword : List Char) : Bool :=
  let text_length := text.length
  if text_length < i + keyword.length + 1 then false
  else (text.drop i).take keyword.length == keyword

/-- The character-consuming loop of `read_var_ahead` (`tokens.rs` lines
88–103), returning the final cursor and the name buffer; `none` models the
panics (`nth(x).unwrap()` past the end, `Invalid variable name`).  The loop
always reads the character at position `x + 1`; the model recurses over the
suffix of the text starting there (`rest = text.drop (x + 1)`), keeping `x`
as the absolute position. -/
def read_var_ahead_loop (parens_mode : Bool) : List Char → Nat → List Char →
    Option (Nat × List Char)
  | [], _, _ => none
  | letter :: rest, x, buf =>
    if letter.isAlpha || letter.isDigit || letter == ':' || letter == '_' then
      read_var_ahead_loop parens_mode rest (x + 1) (buf ++ [letter])
    else if letter == '}' then
      some ((if parens_mode then x + 2 else x + 1), buf)
    else if parens_mode then none
    else some (x + 1, buf)

/-- `read_var_ahead` (`tokens.rs` lines 84–110): reads a `$`/`@` variable name
starting at position `i`, returning the skipper count `x - i - 1` and the
resulting token; `none` models the panics. -/
def read_var_ahead (i : Nat) (text : List Char) : Option (Nat × Tokens) := do
  let first ← text.get? (i + 1)
  let parens_mode := first == '{'
  let (x, buf) ← read_var_ahead_loop parens_mode (text.drop (i + 1)) i []
  let lead ← text.get? i
  let token ←
    if lead == '$' then some (Tokens.StringVariable (String.mk buf) parens_mode)
    else if lead == '@' then some (Tokens.ArrayVariable (String.mk buf) parens_mode)
    else none
  return (x - i - 1, token)

/-- The mutable lexer state of `tokenize`: the three mode flags, the pending
literal buffer, the emitted tokens, and the skip counter. -/
structure LexState where
  quote_active : Bool
  double_quote_active : Bool
  escape_active : Bool
  buf : List Char
  tokens : List Tokens
  skipper : Nat
deriving Repr

/-- The recurring `if buf.len() > 0 { tokens.push(Literal(buf)); buf.clear() }`
idiom of `tokenize`. -/
def flushBuf (st : LexState) : LexState :=
  if st.buf.isEmpty then st
  else { st with tokens := st.tokens ++ [Tokens.Literal (String.mk st.buf)], buf := [] }

/-- The `while text.chars().nth(x).unwrap() == ' '` space-run scan of the
space arm: returns the index of the first non-space character, `none` when the
run reaches the end of input (where `unwrap` panics).  Recurses over the text
suffix starting at `x` (the caller passes `text.drop x`), keeping the absolute
position. -/
def spaceRunEnd : List Char → Nat → Option Nat
  | [], _ => none
  | ch :: rest, x => if ch == ' ' then spaceRunEnd rest (x + 1) else some x

/-- One iteration of the `tokenize` character loop (`tokens.rs` lines
135–330) for the letter at position `i`, excluding the skipper bookkeeping:
the big `match letter` plus the shared tail that resets `escape_active` and
appends to `buf`.  `none` models a panic. -/
def lexStep (text : List Char) (i : Nat) (letter : Char) (st : LexState) :
    Option LexState :=
  let arm : Option (LexState × Bool) :=
    if letter = '"' then
      if !st.escape_active && !st.quote_active then
        some ({ st with double_quote_active := !st.double_quote_active }, false)
      else some (st, true)
    else if letter = '\'' then
      if !st.escape_active && !st.double_quote_active then
        some ({ st with quote_active := !st.quote_active }, false)
      else some (st, true)
    else if letter = '$' then
      if !st.escape_active && !st.quote_active then
        let st := flushBuf st
        match text.get? (i + 1) with
        | none => none
        | some c2 =>
          if c2 = '(' then
            some ({ st with tokens := st.tokens ++ [Tokens.SubStart], skipper := 1 }, false)
          else
            match read_var_ahead i text with
            | none => none
            | some (skippers, token0) =>
              match token0 with
              | Tokens.StringVariable s b =>
                let token :=
                  if !b && !st.double_quote_active && text.get? (i + skippers) == some '(' then
                    Tokens.StringFunction s
                  else token0
                some ({ st with tokens := st.tokens ++ [token], skipper := skippers }, false)
              | Tokens.ArrayVariable s b =>
                let token :=
                  if !b && !st.double_quote_active && text.get? (i + skippers) == some '(' then
                    Tokens.ArrayFunction s
                  else token0
                some ({ st with tokens := st.tokens ++ [token], skipper := skippers }, false)
              | _ => none
      else some (st, true)
    else if letter = ' ' then
      if !st.escape_active && !st.quote_active && !st.double_quote_active then
        let st := flushBuf st
        match spaceRunEnd (text.drop i) i with
        | none => none
        | some x =>
          some ({ st with tokens := st.tokens ++ [Tokens.Space], skipper := x - i - 1 }, false)
      else some (st, true)
    else if letter = '(' then
      if !st.quote_active && !st.double_quote_active && !st.escape_active then
        let st := flushBuf st
        some ({ st with tokens := st.tokens ++ [Tokens.ParenthesisStart] }, false)
      else some (st, true)
    else if letter = ')' then
      if !st.quote_active && !st.double_quote_active && !st.escape_active then
        let st := flushBuf st
        some ({ st with tokens := st.tokens ++ [Tokens.ParenthesisEnd] }, false)
      else some (st, true)
    else if letter = 'i' then
      if !st.quote_active && !st.double_quote_active && !st.escape_active then
        if check_keyword text i [ 'i', 'f' ] then
          let st := flushBuf st
          some ({ st with tokens := st.tokens ++ [Tokens.If], skipper := 2 }, false)
        else some (st, true)
      else some (st, true)
    else if letter = 'e' then
      if !st.quote_active && !st.double_quote_active && !st.escape_active then
        if check_keyword text i [ 'e', 'l', 's', 'e' ] then
          let st := flushBuf st
          some ({ st with tokens := st.tokens ++ [Tokens.Else], skipper := 4 }, false)
        else if check_keyword text i [ 'e', 'n', 'd' ] then
          let st := flushBuf st
          some ({ st with tokens := st.tokens ++ [Tokens.End], skipper := 3 }, false)
        else some (st, true)
      else some (st, true)
    else if letter = 'l' then
      if !st.quote_active && !st.double_quote_active && !st.escape_active then
        if check_keyword text i [ 'l', 'e', 't' ] then
          let st := flushBuf st
          some ({ st with tokens := st.tokens ++ [Tokens.Let], skipper := 3 }, false)
        else some (st, true)
      else some (st, true)
    else if letter = 'w' then
      if !st.quote_active && !st.double_quote_active && !st.escape_active then
        if check_keyword text i [ 'w', 'h', 'i', 'l', 'e' ] then
          let st := flushBuf st
          some ({ st with tokens := st.tokens ++ [Tokens.While], skipper := 5 }, false)
        else some (st, true)
      else some (st, true)
    else if letter = 'f' then
      if !st.quote_active && !st.double_quote_active && !st.escape_active then
        if check_keyword text i [ 'f', 'o', 'r' ] then
          let st := flushBuf st
          -- `tokens.rs` line 257 pushes `Tokens::If` here, not `Tokens::For`.
          some ({ st with tokens := st.tokens ++ [Tokens.If], skipper := 3 }, false)
        else some (st, true)
      else some (st, true)
    else if letter = '|' then
      if !st.escape_active && !st.quote_active && !st.double_quote_active then
        let st := flushBuf st
        if check_keyword text i [ '|', '|' ] then
          some ({ st with tokens := st.tokens ++ [Tokens.Or], skipper := 1 }, false)
        else
          some ({ st with tokens := st.tokens ++ [Tokens.RedirectInto] }, false)
      else some (st, true)
    else if letter = '&' then
      if !st.escape_active && !st.quote_active && !st.double_quote_active then
        let st := flushBuf st
        if check_keyword text i [ '&', '&' ] then
          some ({ st with tokens := st.tokens ++ [Tokens.And], skipper := 1 }, false)
        else
          some ({ st with tokens := st.tokens ++ [Tokens.JobCommandEnd] }, false)
      else some (st, true)
    else if letter = '>' then
      if !st.escape_active && !st.quote_active && !st.double_quote_active then
        let st := flushBuf st
        some ({ st with tokens := st.tokens ++ [Tokens.FileWrite] }, false)
      else some (st, true)
    else if letter = '<' then
      if !st.escape_active && !st.quote_active && !st.double_quote_active then
        let st := flushBuf st
        some ({ st with tokens := st.tokens ++ [Tokens.FileRead] }, false)
      else some (st, true)
    else if letter = ';' ∨ letter = '\n' then
      if !st.escape_active && !st.quote_active && !st.double_quote_active then
        let st := flushBuf st
        some ({ st with tokens := st.tokens ++ [Tokens.CommandEnd letter] }, false)
      else some (st, true)
    else if letter = '\\' then
      if !st.escape_active then some ({ st with escape_active := true }, false)
      else some ({ st with escape_active := false }, true)
    else if letter = '=' then
      if !st.escape_active && !st.quote_active && !st.double_quote_active then
        let st := flushBuf st
        some ({ st with tokens := st.tokens ++ [Tokens.ExportSet] }, false)
      else some (st, true)
    else some (st, true)
  match arm with
  | none => none
  | some (st₁, buf_add) =>
    let st₂ := if letter ≠ '\\' then { st₁ with escape_active := false } else st₁
    some (if buf_add then { st₂ with buf := st₂.buf ++ [letter] } else st₂)

/-- The `for i in 0..text_length` driver loop of `tokenize`, with the skipper
check at the top of each iteration and the final flush of a pending literal
after the loop.  The loop index `i` walks the characters of `text` in order;
the model recurses over the remaining characters (`rest = text.drop i`,
whose head is the `letter` at position `i`) while carrying the full text for
the look-ahead reads. -/
def tokenizeGo (text : List Char) : List Char → Nat → LexState → Option (List Tokens)
  | [], _, st => some (flushBuf st).tokens
  | letter :: rest, i, st =>
    if st.skipper > 0 then
      tokenizeGo text rest (i + 1) { st with skipper := st.skipper - 1 }
    else
      match lexStep text i letter st with
      | none => none
      | some st' => tokenizeGo text rest (i + 1) st'

/-- `tokenize` (`tokens.rs` lines 118–337) on an input string: `none` models a
panic, otherwise the emitted token list.  The source measures `text_length`
in bytes but indexes with `chars()`; the model walks characters, which agrees
with the source on ASCII input (every input below is ASCII). -/
def tokenize (text : String) : Option (List Tokens) :=
  tokenizeGo text.data text.data 0 ⟨false, false, false, [], [], 0⟩

/-! ## AST (`ast.rs`)

The Rust code wraps each `Expression` variant's fields in a dedicated struct
(`LetExpression`, `AndExpression`, …).  The model flattens those structs into
the fields of the corresponding constructor, keeping the Rust field names and
ordering. -/

/-- `FunctionVariable` (`ast.rs` lines 68–72). -/
structure FunctionVariable where
  name : String
  vartype : Option String
deriving Repr

mutual

/-- `Value` (`ast.rs` lines 57–66). -/
inductive Value where
  | Literal : String → Value
  | Variable : String → Value
  | ArrayVariable : String → Value
  | ArrayDefinition : List Value → Value
  | ValueFunction : DefinedFunctionCall → Value
  | Expressions : List Expression → Value
  | Values : List Value → Value

/-- `DefinedFunctionCall` (`ast.rs` lines 51–55). -/
inductive DefinedFunctionCall where
  | mk (name : String) (args : List Value) : DefinedFunctionCall

/-- `FunctionDefinitionExpression` (`ast.rs` lines 74–81). -/
inductive FunctionDefinitionExpression where
  | mk (name : String) (description : Option String) (on_event : Option String)
      (args : List FunctionVariable) (body : Expression) : FunctionDefinitionExpression

/-- `CommandValue` (`ast.rs` lines 101–105). -/
inductive CommandValue where
  | Value : Value → CommandValue
  | Var : String → Value → CommandValue

/-- `Expression` (`ast.rs` lines 112–128), with each variant's struct fields
inlined. -/
inductive Expression where
  | LetExpression (key : Value) (vartype : Option String) (value : Value)
  | Command (values : List CommandValue)
  | JobCommand (inner : Expression)
  | Function (def_ : FunctionDefinitionExpression)
  | IfExpression (condition : Expression) (contents : List Expression)
      (else_contents : List Expression)
  | WhileExpression (condition : Expression) (contents : List Expression)
  | ForExpression (arg_value : Value) (arg_key : Option Value) (list : Value)
      (contents : List Expression) (else_contents : List Expression)
  | RedirectTargetExpression (source : Expression) (target : Expression)
  | FileTargetExpression (source : Option Expression) (target : Value)
  | FileSourceExpression (source : Value) (target : Option Expression)
  | Expressions (inner : List Expression)
  | OrExpression (first : Expression) (second : Expression)
  | AndExpression (first : Expression) (second : Expression)
  | BreakExpression (num : Value)

end

/-- Outcome of a `Tree` parsing routine: `ok a i` is success with result `a`
and the tree's cursor left at `i`; `err msg` is a `bail!` / propagated
`anyhow` error displaying `msg` (a `with_context` wrapper displays the outer
message, which is what `build_tree` compares against); `stuck` models a Rust
panic (`unwrap` on a missing token, slice out of range) and also exhaustion of
the step budget the model threads through the mutually recursive routines. -/
inductive PRes (α : Type) where
  | ok : α → Nat → PRes α
  | err : String → PRes α
  | stuck : PRes α
deriving Repr

/-- `Tree::get_parens_vals`'s scanning loop over `tokens[i..end]`
(`ast.rs` lines 432–447): `SubStart`, function calls and `(` raise the
nesting level, `)` lowers it; the scan stops when the level reaches zero. -/
def gpvLoop : List Tokens → Nat → Nat → Nat × Nat
  | [], len, lvl => (len, lvl)
  | t :: ts, len, lvl =>
    let lvl' :=
      match t with
      | Tokens.SubStart => lvl + 1
      | Tokens.StringFunction _ => lvl + 1
      | Tokens.ArrayFunction _ => lvl + 1
      | Tokens.ParenthesisStart => lvl + 1
      | Tokens.ParenthesisEnd => lvl - 1
      | _ => lvl
    if lvl' = 0 then (len, lvl') else gpvLoop ts (len + 1) lvl'

/-- `Tree::get_parens_vals` (`ast.rs` lines 430–449); `none` models the slice
panic when `i > end` or `end > tokens.len()`. -/
def get_parens_vals (tks : List Tokens) (i e : Nat) : Option (Nat × Nat) :=
  if i ≤ e ∧ e ≤ tks.length then some (gpvLoop ((tks.drop i).take (e - i)) 0 1)
  else none

/-- The `for token in &self.tokens[self.i..]` scan of `parse_read` /
`parse_write` (`ast.rs` lines 231–241 and 253–262): advances `val_end` to just
past the first completed word, failing on an immediate command end or on a
nested redirect token.  Returns the final `val_end` (before the closing
`val_end -= 1`). -/
def redirectScan : List Tokens → Nat → Bool → Res Nat
  | [], val_end, _ => Except.ok val_end
  | t :: ts, val_end, found_first =>
    let val_end := val_end + 1
    match t with
    | Tokens.Space =>
      if found_first then Except.ok val_end else redirectScan ts val_end found_first
    | Tokens.CommandEnd _ =>
      if !found_first then Except.error "Unexpected command end" else Except.ok val_end
    | Tokens.FileRead => Except.error "Unexpected file read (<)"
    | Tokens.FileWrite => Except.error "Unexpected file write (>)"
    | _ => redirectScan ts val_end true

/-- The bracket-matching scan of the `ArrayStart` arm of `get_value`
(`ast.rs` lines 484–499), over `tokens[i..]` with the extra
`len + i == end` stop. -/
def arrayScan (iStart e : Nat) : List Tokens → Nat → Nat → Nat × Nat
  | [], len, lvl => (len, lvl)
  | t :: ts, len, lvl =>
    let lvl' :=
      match t with
      | Tokens.ArrayStart => lvl + 1
      | Tokens.ArrayEnd => lvl - 1
      | _ => lvl
    if lvl' = 0 then (len, lvl')
    else
      let len' := len + 1
      if len' + iStart = e then (len', lvl') else arrayScan iStart e ts len' lvl'

/-- The `ExportSet`-terminated counting loop of `parse_let` (`ast.rs` lines
214–219). -/
def letKeyLen : List Tokens → Nat
  | [] => 0
  | Tokens.ExportSet :: _ => 0
  | _ :: ts => letKeyLen ts + 1

/-- The buffer flush at a `Space` / at the end of `parse_call` (`ast.rs`
lines 143–150 and 200–206): one pending fragment is pushed plain, several are
wrapped in `Value::Values`. -/
def pushCallBuf (values : List CommandValue) (buf : List Value) : List CommandValue :=
  match buf with
  | [] => values
  | [v] => values ++ [CommandValue.Value v]
  | _ => values ++ [CommandValue.Value (Value.Values buf)]

/-- Monadic bind on `PRes`: propagate errors and panics, feed the result and
new cursor through (`?` in the source). -/
def PRes.bind {α β : Type} : PRes α → (α → Nat → PRes β) → PRes β
  | PRes.ok a i, f => f a i
  | PRes.err m, _ => PRes.err m
  | PRes.stuck, _ => PRes.stuck

/-- `anyhow`'s `with_context`: an error's user-visible message (its `Display`)
becomes the outer context string; success and panic pass through. -/
def PRes.withCtx {α : Type} (msg : String) : PRes α → PRes α
  | PRes.err _ => PRes.err msg
  | x => x

/-- `Tree::get_current_token` without the `unwrap` (the callers below turn
`none` into `stuck`). -/
def curTok (tks : List Tokens) (i : Nat) : Option Tokens := tks.get? i

/-- `Tree::parse_function` (`ast.rs` lines 269–271). -/
def parse_function (_e _i : Nat) : PRes FunctionDefinitionExpression :=
  PRes.err "Functions not yet implemented"

/-- The `match expr` epilogue of `get_expression` (`ast.rs` lines 645–648). -/
def ge_finish (expr : Option Expression) (i : Nat) : PRes Expression :=
  match expr with
  | some x => PRes.ok x i
  | none => PRes.err "No expression found"

/-- The epilogue of `parse_call` (`ast.rs` lines 195–207): step back over a
redirect token the loop stopped on, flush the word buffer, and yield the
command. -/
def parse_call_finish (values : List CommandValue) (buf : List Value)
    (token : Tokens) (i : Nat) : PRes Expression :=
  let i' :=
    match token with
    | Tokens.FileWrite => i - 1
    | Tokens.FileRead => i - 1
    | Tokens.RedirectInto => i - 1
    | _ => i
  PRes.ok (Expression.Command (pushCallBuf values buf)) i'

/-- The buffer/values flush at the end of `get_value` (`ast.rs` lines
545–555): a single pending fragment is pushed plain, several wrapped in
`Value::Values`; a single collected value is returned unwrapped. -/
def gv_finish (values : List Value) (buf : List Value) (i : Nat) : PRes Value :=
  let values' :=
    match buf with
    | [] => values
    | [v] => values ++ [v]
    | _ => values ++ [Value.Values buf]
  match values' with
  | [v] => PRes.ok v i
  | vs => PRes.ok (Value.Values vs) i

/-!
The `Tree` parsing routines (`ast.rs` lines 136–675).  The Rust code is a
cursor machine of mutually recursive methods whose `loop`s advance (and
occasionally rewind) `self.i`; the model makes the cursor explicit — every
routine takes `i` and returns the new cursor in `PRes.ok` — and renders each
`loop` as a mutually recursive function over its live local variables.  A
step budget `fuel` is threaded through all routines (the source has no
termination argument; `stuck` doubles as budget exhaustion, and every theorem
below evaluates with a budget large enough that it is never reached).
-/

set_option maxHeartbeats 2000000

mutual

/-- `Tree::parse_call` (`ast.rs` lines 137–208): entry — fetch the current
token and start the word loop. -/
def parse_call (tks : List Tokens) (fuel : Nat) (e i : Nat) : PRes Expression :=
  match fuel with
  | 0 => PRes.stuck
  | fuel + 1 =>
    match curTok tks i with
    | none => PRes.stuck
    | some t => parse_call_loop tks fuel e i t [] []

termination_by structural fuel

/-- The main loop of `parse_call`, with the current `token` and the `values` /
`buf` accumulators as explicit state. -/
def parse_call_loop (tks : List Tokens) (fuel : Nat) (e i : Nat) (token : Tokens)
    (values : List CommandValue) (buf : List Value) : PRes Expression :=
  match fuel with
  | 0 => PRes.stuck
  | fuel + 1 =>
    match token with
    | Tokens.Space =>
      let values' := pushCallBuf values buf
      if i ≥ e - 1 then parse_call_finish values' [] Tokens.Space i
      else
        match curTok tks (i + 1) with
        | none => PRes.stuck
        | some t => parse_call_loop tks fuel e (i + 1) t values' []
    | Tokens.Literal s => parse_call_after tks fuel e i token values (buf ++ [Value.Literal s])
    | Tokens.SubStart =>
      PRes.bind (get_value tks fuel e i false) fun v i₁ =>
        match curTok tks i₁ with
        | none => PRes.stuck
        | some t' => parse_call_after tks fuel e i₁ t' values (buf ++ [v])
    | Tokens.StringVariable s _ =>
      if s = "" then PRes.err "Expected variable name"
      else parse_call_after tks fuel e i token values (buf ++ [Value.Variable s])
    | Tokens.ArrayVariable s _ =>
      parse_call_after tks fuel e i token values (buf ++ [Value.ArrayVariable s])
    | Tokens.FileWrite => parse_call_finish values buf token i
    | Tokens.FileRead => parse_call_finish values buf token i
    | Tokens.RedirectInto => parse_call_finish values buf token i
    | Tokens.And => parse_call_finish values buf token i
    | Tokens.Or => parse_call_finish values buf token i
    | Tokens.JobCommandEnd => parse_call_finish values buf token i
    | Tokens.ParenthesisEnd =>
      if i ≥ e - 1 then parse_call_finish values buf token i
      else parse_call_after tks fuel e i token values (buf ++ [Value.Literal token.to_str])
    | Tokens.StringFunction _ =>
      PRes.bind (get_value tks fuel e i false) fun v i₁ =>
        match curTok tks i₁ with
        | none => PRes.stuck
        | some t' => parse_call_after tks fuel e i₁ t' values (buf ++ [v])
    | Tokens.ArrayFunction _ =>
      PRes.bind (get_value tks fuel e i false) fun v i₁ =>
        match curTok tks i₁ with
        | none => PRes.stuck
        | some t' => parse_call_after tks fuel e i₁ t' values (buf ++ [v])
    | _ => parse_call_after tks fuel e i token values (buf ++ [Value.Literal token.to_str])

termination_by structural fuel

/-- The shared tail of a `parse_call` loop iteration (`ast.rs` lines
189–193): bound check, advance, and break on a `CommandEnd`. -/
def parse_call_after (tks : List Tokens) (fuel : Nat) (e i : Nat) (token : Tokens)
    (values : List CommandValue) (buf : List Value) : PRes Expression :=
  match fuel with
  | 0 => PRes.stuck
  | fuel + 1 =>
    if i ≥ e - 1 then parse_call_finish values buf token i
    else
      match curTok tks (i + 1) with
      | none => PRes.stuck
      | some t2 =>
        match t2 with
        | Tokens.CommandEnd _ => parse_call_finish values buf t2 (i + 1)
        | _ => parse_call_loop tks fuel e (i + 1) t2 values buf

termination_by structural fuel

/-- `Tree::parse_let` (`ast.rs` lines 210–225). -/
def parse_let (tks : List Tokens) (fuel : Nat) (e i : Nat) : PRes Expression :=
  match fuel with
  | 0 => PRes.stuck
  | fuel + 1 =>
    if e < i + 2 then PRes.err "Let needs name and equal sign (=) at minimum"
    else
      let i₁ := i + 1
      if i₁ > tks.length then PRes.stuck
      else
        let len := letKeyLen (tks.drop i₁)
        PRes.bind (get_value tks fuel (i₁ + len) i₁ false) fun key i₂ =>
          PRes.bind (get_value tks fuel e (i₂ + 2) false) fun value i₄ =>
            PRes.ok (Expression.LetExpression key none value) i₄

termination_by structural fuel

/-- `Tree::parse_read` (`ast.rs` lines 227–246). -/
def parse_read (tks : List Tokens) (fuel : Nat) (target : Option Expression)
    (_e i : Nat) : PRes Expression :=
  match fuel with
  | 0 => PRes.stuck
  | fuel + 1 =>
    let i₁ := i + 1
    if i₁ > tks.length then PRes.stuck
    else
      match redirectScan (tks.drop i₁) i₁ false with
      | Except.error m => PRes.err m
      | Except.ok ve =>
        let val_end := ve - 1
        PRes.bind (get_value tks fuel val_end i₁ false) fun source i₂ =>
          PRes.ok (Expression.FileSourceExpression source target) (i₂ + 1)

termination_by structural fuel

/-- `Tree::parse_write` (`ast.rs` lines 248–267). -/
def parse_write (tks : List Tokens) (fuel : Nat) (source : Option Expression)
    (_e i : Nat) : PRes Expression :=
  match fuel with
  | 0 => PRes.stuck
  | fuel + 1 =>
    let i₁ := i + 1
    if i₁ > tks.length then PRes.stuck
    else
      match redirectScan (tks.drop i₁) i₁ false with
      | Except.error m => PRes.err m
      | Except.ok ve =>
        let val_end := ve - 1
        PRes.bind (get_value tks fuel val_end i₁ false) fun target i₂ =>
          PRes.ok (Expression.FileTargetExpression source target) (i₂ + 1)

termination_by structural fuel

/-- `Tree::parse_string_or_array_func_call` (`ast.rs` lines 273–293). -/
def parse_string_or_array_func_call (tks : List Tokens) (fuel : Nat) (e i : Nat) :
    PRes DefinedFunctionCall :=
  match fuel with
  | 0 => PRes.stuck
  | fuel + 1 =>
    match curTok tks i with
    | none => PRes.stuck
    | some t =>
      match t with
      | Tokens.ArrayFunction s => psoafc_args tks fuel e (i + 1) ("@" ++ s) []
      | Tokens.StringFunction s => psoafc_args tks fuel e (i + 1) ("$" ++ s) []
      | _ => PRes.err "Expected string or array function - internal error"

termination_by structural fuel

/-- The argument loop of `parse_string_or_array_func_call` (`ast.rs` lines
286–291). -/
def psoafc_args (tks : List Tokens) (fuel : Nat) (e i : Nat) (name : String)
    (args : List Value) : PRes DefinedFunctionCall :=
  match fuel with
  | 0 => PRes.stuck
  | fuel + 1 =>
    PRes.bind (get_value tks fuel e i false) fun v i₁ =>
      let args' := args ++ [v]
      let i₂ := i₁ + 1
      if i₂ ≥ e then PRes.ok (DefinedFunctionCall.mk name args') i₂
      else psoafc_args tks fuel e i₂ name args'

termination_by structural fuel

/-- `Tree::parse_for` (`ast.rs` lines 295–327). -/
def parse_for (tks : List Tokens) (fuel : Nat) (e i : Nat) : PRes Expression :=
  match fuel with
  | 0 => PRes.stuck
  | fuel + 1 =>
    PRes.bind (get_value tks fuel e (i + 1) true) fun arg_value i₁ =>
      PRes.bind (get_value tks fuel e i₁ true) fun keyCand i₂ =>
        let arg_key : Option Value :=
          match keyCand with
          | Value.Literal k => if k = "in" then none else some keyCand
          | any => some any
        match arg_key with
        | none => parse_for_list tks fuel e i₂ arg_value none
        | some _ =>
          PRes.bind (get_value tks fuel e i₂ true) fun inCand i₃ =>
            match inCand with
            | Value.Literal k =>
              if k = "in" then parse_for_list tks fuel e (i₃ + 1) arg_value arg_key
              else PRes.err "Expected 'in' after for key"
            | _ => PRes.err "Expected 'in' after for key"

termination_by structural fuel

/-- The tail of `parse_for` after the bound names: the iterable, the body
loop, and the `else` branch (`ast.rs` lines 309–326). -/
def parse_for_list (tks : List Tokens) (fuel : Nat) (e i : Nat) (arg_value : Value)
    (arg_key : Option Value) : PRes Expression :=
  match fuel with
  | 0 => PRes.stuck
  | fuel + 1 =>
    PRes.bind (get_value tks fuel e i false) fun list i₁ =>
      PRes.bind (parse_for_body tks fuel e i₁ []) fun contents i₂ =>
        PRes.bind (parse_else tks fuel e i₂) fun else_contents i₃ =>
          PRes.ok (Expression.ForExpression arg_value arg_key list contents else_contents) i₃

termination_by structural fuel

/-- The body loop of `parse_for` (`ast.rs` lines 313–323). -/
def parse_for_body (tks : List Tokens) (fuel : Nat) (e i : Nat)
    (contents : List Expression) : PRes (List Expression) :=
  match fuel with
  | 0 => PRes.stuck
  | fuel + 1 =>
    match curTok tks i with
    | none => PRes.stuck
    | some t =>
      match t with
      | Tokens.End => PRes.ok contents i
      | Tokens.Else => PRes.ok contents i
      | Tokens.Space => parse_for_body_tail tks fuel e i contents
      | Tokens.CommandEnd _ => parse_for_body_tail tks fuel e i contents
      | _ =>
        match PRes.withCtx "Error getting contents for for expression"
            (get_expression tks fuel e i) with
        | PRes.ok x i' => parse_for_body_tail tks fuel e i' (contents ++ [x])
        | PRes.err m => PRes.err m
        | PRes.stuck => PRes.stuck

termination_by structural fuel

/-- The `if self.i >= end - 1 { break } self.inc()` tail of the `parse_for`
body loop. -/
def parse_for_body_tail (tks : List Tokens) (fuel : Nat) (e i : Nat)
    (contents : List Expression) : PRes (List Expression) :=
  match fuel with
  | 0 => PRes.stuck
  | fuel + 1 =>
    if i ≥ e - 1 then PRes.ok contents i
    else parse_for_body tks fuel e (i + 1) contents

termination_by structural fuel

/-- `Tree::parse_else` (`ast.rs` lines 329–369). -/
def parse_else (tks : List Tokens) (fuel : Nat) (e i : Nat) : PRes (List Expression) :=
  match fuel with
  | 0 => PRes.stuck
  | fuel + 1 =>
    match parse_else_skip1 tks fuel e i with
    | PRes.ok true i₁ => PRes.ok [] i₁
    | PRes.ok false i₁ =>
      match curTok tks i₁ with
      | none => PRes.stuck
      | some t =>
        let body :=
          match t with
          | Tokens.Else => parse_else_body tks fuel e (i₁ + 1) []
          | _ => PRes.ok [] i₁
        PRes.bind body fun else_contents i₂ =>
          if i₂ < e then
            PRes.bind (parse_else_skip2 tks fuel e i₂) fun _ i₃ =>
              PRes.ok else_contents (i₃ + 1)
          else PRes.ok else_contents i₂
    | PRes.err m => PRes.err m
    | PRes.stuck => PRes.stuck

termination_by structural fuel

/-- The leading separator-skipping loop of `parse_else` (`ast.rs` lines
330–337); `ok true` is the early `return Ok(Vec::new())`, `ok false` falls
through to the `Else` check. -/
def parse_else_skip1 (tks : List Tokens) (fuel : Nat) (e i : Nat) : PRes Bool :=
  match fuel with
  | 0 => PRes.stuck
  | fuel + 1 =>
    match curTok tks i with
    | none => PRes.stuck
    | some t =>
      match t with
      | Tokens.CommandEnd _ =>
        if i + 1 ≥ e - 1 then PRes.ok true (i + 1)
        else parse_else_skip1 tks fuel e (i + 1)
      | Tokens.Space =>
        if i + 1 ≥ e - 1 then PRes.ok true (i + 1)
        else parse_else_skip1 tks fuel e (i + 1)
      | _ => PRes.ok false i

termination_by structural fuel

/-- The else-body loop of `parse_else` (`ast.rs` lines 339–356). -/
def parse_else_body (tks : List Tokens) (fuel : Nat) (e i : Nat)
    (else_contents : List Expression) : PRes (List Expression) :=
  match fuel with
  | 0 => PRes.stuck
  | fuel + 1 =>
    match curTok tks i with
    | none => PRes.stuck
    | some t =>
      match t with
      | Tokens.End => PRes.ok else_contents i
      | Tokens.Else => PRes.ok else_contents i
      | Tokens.Space => parse_else_body_tail tks fuel e i else_contents
      | Tokens.CommandEnd _ => parse_else_body_tail tks fuel e i else_contents
      | Tokens.If =>
        match PRes.withCtx "Error getting contents for if expression"
            (get_expression tks fuel e i) with
        | PRes.ok x i' =>
          let else_contents' := else_contents ++ [x]
          if else_contents'.length = 1 then PRes.ok else_contents' i'
          else parse_else_body_tail tks fuel e i' else_contents'
        | PRes.err m => PRes.err m
        | PRes.stuck => PRes.stuck
      | _ =>
        match PRes.withCtx "Error getting contents for if expression"
            (get_expression tks fuel e i) with
        | PRes.ok x i' => parse_else_body_tail tks fuel e i' (else_contents ++ [x])
        | PRes.err m => PRes.err m
        | PRes.stuck => PRes.stuck

termination_by structural fuel

/-- The `self.inc(); if self.i >= end { break }` tail of the else-body loop. -/
def parse_else_body_tail (tks : List Tokens) (fuel : Nat) (e i : Nat)
    (else_contents : List Expression) : PRes (List Expression) :=
  match fuel with
  | 0 => PRes.stuck
  | fuel + 1 =>
    let i' := i + 1
    if i' ≥ e then PRes.ok else_contents i'
    else parse_else_body tks fuel e i' else_contents

termination_by structural fuel

/-- The trailing separator-skipping loop of `parse_else` (`ast.rs` lines
357–367), without the final `inc` (applied by the caller). -/
def parse_else_skip2 (tks : List Tokens) (fuel : Nat) (e i : Nat) : PRes Unit :=
  match fuel with
  | 0 => PRes.stuck
  | fuel + 1 =>
    match curTok tks i with
    | none => PRes.stuck
    | some t =>
      match t with
      | Tokens.CommandEnd _ =>
        if i + 1 ≥ e - 1 then PRes.ok () (i + 1)
        else parse_else_skip2 tks fuel e (i + 1)
      | Tokens.Space =>
        if i + 1 ≥ e - 1 then PRes.ok () (i + 1)
        else parse_else_skip2 tks fuel e (i + 1)
      | _ => PRes.ok () i

termination_by structural fuel

/-- `Tree::parse_if` (`ast.rs` lines 371–388). -/
def parse_if (tks : List Tokens) (fuel : Nat) (e i : Nat) : PRes Expression :=
  match fuel with
  | 0 => PRes.stuck
  | fuel + 1 =>
    match PRes.withCtx "Error getting condition for if expression"
        (get_expression tks fuel e (i + 1)) with
    | PRes.ok condition i₁ =>
      PRes.bind (parse_if_body tks fuel e i₁ []) fun contents i₂ =>
        PRes.bind (parse_else tks fuel e i₂) fun else_contents i₃ =>
          PRes.ok (Expression.IfExpression condition contents else_contents) i₃
    | PRes.err m => PRes.err m
    | PRes.stuck => PRes.stuck

termination_by structural fuel

/-- The body loop of `parse_if` (`ast.rs` lines 375–385). -/
def parse_if_body (tks : List Tokens) (fuel : Nat) (e i : Nat)
    (contents : List Expression) : PRes (List Expression) :=
  match fuel with
  | 0 => PRes.stuck
  | fuel + 1 =>
    match curTok tks i with
    | none => PRes.stuck
    | some t =>
      match t with
      | Tokens.End => PRes.ok contents i
      | Tokens.Else => PRes.ok contents i
      | Tokens.Space => parse_if_body_tail tks fuel e i contents
      | Tokens.CommandEnd _ => parse_if_body_tail tks fuel e i contents
      | _ =>
        match PRes.withCtx "Error getting contents for if expression"
            (get_expression tks fuel e i) with
        | PRes.ok x i' => parse_if_body_tail tks fuel e i' (contents ++ [x])
        | PRes.err m => PRes.err m
        | PRes.stuck => PRes.stuck

termination_by structural fuel

/-- The `self.inc(); if self.i >= end { break }` tail of the `parse_if` body
loop. -/
def parse_if_body_tail (tks : List Tokens) (fuel : Nat) (e i : Nat)
    (contents : List Expression) : PRes (List Expression) :=
  match fuel with
  | 0 => PRes.stuck
  | fuel + 1 =>
    let i' := i + 1
    if i' ≥ e then PRes.ok contents i'
    else parse_if_body tks fuel e i' contents

termination_by structural fuel

/-- `Tree::parse_while` (`ast.rs` lines 390–407). -/
def parse_while (tks : List Tokens) (fuel : Nat) (e i : Nat) : PRes Expression :=
  match fuel with
  | 0 => PRes.stuck
  | fuel + 1 =>
    match PRes.withCtx "Error getting condition for while expression"
        (get_expression tks fuel e (i + 1)) with
    | PRes.ok condition i₁ =>
      PRes.bind (parse_while_body tks fuel e (i₁ + 1) []) fun contents i₂ =>
        PRes.ok (Expression.WhileExpression condition contents) (i₂ + 1)
    | PRes.err m => PRes.err m
    | PRes.stuck => PRes.stuck

termination_by structural fuel

/-- The body loop of `parse_while` (`ast.rs` lines 395–404): note the source
has no bound check here — the loop runs to an `End`, an error, or a panic on
running out of tokens. -/
def parse_while_body (tks : List Tokens) (fuel : Nat) (e i : Nat)
    (contents : List Expression) : PRes (List Expression) :=
  match fuel with
  | 0 => PRes.stuck
  | fuel + 1 =>
    match curTok tks i with
    | none => PRes.stuck
    | some t =>
      match t with
      | Tokens.End => PRes.ok contents i
      | Tokens.Else =>
        PRes.err "Unexpected ELSE. Support for ELSE statements after WHILE may come later."
      | Tokens.CommandEnd _ => parse_while_body tks fuel e (i + 1) contents
      | Tokens.Space => parse_while_body tks fuel e (i + 1) contents
      | _ =>
        match PRes.withCtx "Error getting contents for while expression"
            (get_expression tks fuel e i) with
        | PRes.ok x i' => parse_while_body tks fuel e i' (contents ++ [x])
        | PRes.err m => PRes.err m
        | PRes.stuck => PRes.stuck

termination_by structural fuel

/-- `Tree::parse_sub` (`ast.rs` lines 409–416). -/
def parse_sub (tks : List Tokens) (fuel : Nat) (e i : Nat)
    (expressions : List Expression) : PRes (List Expression) :=
  match fuel with
  | 0 => PRes.stuck
  | fuel + 1 =>
    if i ≥ e - 1 then PRes.ok expressions i
    else
      PRes.bind (get_expression tks fuel e i) fun x i' =>
        parse_sub tks fuel e i' (expressions ++ [x])

termination_by structural fuel

/-- `Tree::parse_array_definition` (`ast.rs` lines 418–428). -/
def parse_array_definition (tks : List Tokens) (fuel : Nat) (e i : Nat)
    (values : List Value) : PRes (List Value) :=
  match fuel with
  | 0 => PRes.stuck
  | fuel + 1 =>
    if i ≥ e then PRes.ok values i
    else
      PRes.bind (get_value tks fuel e i true) fun v i₁ =>
        let i₂ := i₁ + 1
        let values' := values ++ [v]
        match curTok tks i₂ with
        | none => PRes.stuck
        | some t =>
          let i₃ := if t = Tokens.Space then i₂ + 1 else i₂
          parse_array_definition tks fuel e i₃ values'

termination_by structural fuel

/-- `Tree::get_value` (`ast.rs` lines 451–556): entry — fetch the current
token and start the loop. -/
def get_value (tks : List Tokens) (fuel : Nat) (e i : Nat) (stop_on_space : Bool) :
    PRes Value :=
  match fuel with
  | 0 => PRes.stuck
  | fuel + 1 =>
    match curTok tks i with
    | none => PRes.stuck
    | some t => get_value_loop tks fuel e i stop_on_space t [] []

termination_by structural fuel

/-- The main loop of `get_value`, with the current token and the `values` /
`buf` accumulators as explicit state. -/
def get_value_loop (tks : List Tokens) (fuel : Nat) (e i : Nat) (stop_on_space : Bool)
    (token : Tokens) (values : List Value) (buf : List Value) : PRes Value :=
  match fuel with
  | 0 => PRes.stuck
  | fuel + 1 =>
    match token with
    | Tokens.Space =>
      if buf.isEmpty then
        match curTok tks (i + 1) with
        | none => PRes.stuck
        | some t => get_value_loop tks fuel e (i + 1) stop_on_space t values buf
      else if stop_on_space then gv_finish values buf i
      else
        let values' := values ++ [Value.Values buf]
        if i ≥ e - 1 then gv_finish values' [] i
        else get_value_after tks fuel e i stop_on_space values' []
    | Tokens.CommandEnd _ => gv_finish values buf i
    | Tokens.Literal s =>
      get_value_after tks fuel e i stop_on_space values (buf ++ [Value.Literal s])
    | Tokens.ExportSet => PRes.err "Unexpected token EXPORT_SET (=)"
    | Tokens.FileRead =>
      get_value_after tks fuel e i stop_on_space values (buf ++ [Value.Literal token.to_str])
    | Tokens.Function =>
      get_value_after tks fuel e i stop_on_space values (buf ++ [Value.Literal token.to_str])
    | Tokens.FileWrite =>
      get_value_after tks fuel e i stop_on_space values (buf ++ [Value.Literal token.to_str])
    | Tokens.RedirectInto => PRes.err "Unexpected token REDIRECT (|)"
    | Tokens.ParenthesisEnd => PRes.err "Unexpected token FUNCTION CALL END ())"
    | Tokens.StringFunction _ =>
      match get_parens_vals tks (i + 1) e with
      | none => PRes.stuck
      | some (len, lvl) =>
        if lvl ≠ 0 then PRes.err "Parenthesis do not match"
        else
          PRes.bind (parse_string_or_array_func_call tks fuel (i + len) i) fun call i₁ =>
            PRes.ok (Value.ValueFunction call) i₁
    | Tokens.ArrayFunction _ =>
      match get_parens_vals tks (i + 1) e with
      | none => PRes.stuck
      | some (len, lvl) =>
        if lvl ≠ 0 then PRes.err "Parenthesis do not match"
        else
          PRes.bind (parse_string_or_array_func_call tks fuel (i + len) i) fun call i₁ =>
            PRes.ok (Value.ValueFunction call) i₁
    | Tokens.ParenthesisStart => PRes.err "Parenthesis not yet implemented"
    | Tokens.ArrayStart =>
      let i₁ := i + 1
      if i₁ > tks.length then PRes.stuck
      else
        let scanned := arrayScan i₁ e (tks.drop i₁) 0 1
        if scanned.2 ≠ 0 then PRes.err "Parenthesis do not match"
        else
          PRes.bind (parse_array_definition tks fuel (i₁ + scanned.1) i₁ []) fun vals i₂ =>
            let values' := values ++ [Value.ArrayDefinition vals]
            if i₂ ≥ e - 1 then gv_finish values' buf i₂
            else get_value_after tks fuel e i₂ stop_on_space values' buf
    | Tokens.ArrayEnd => PRes.err "Unexpected token ARRAY END (])"
    | Tokens.SubStart =>
      match get_parens_vals tks i e with
      | none => PRes.stuck
      | some (len, lvl) =>
        let i₁ := i + 1
        if lvl ≠ 0 then PRes.err "Parenthesis do not match"
        else
          PRes.bind (parse_sub tks fuel (i₁ + len) i₁ []) fun exprs i₂ =>
            PRes.ok (Value.Expressions exprs) (i₂ + 1)
    | Tokens.Else =>
      get_value_after tks fuel e i stop_on_space values (buf ++ [Value.Literal token.to_str])
    | Tokens.End =>
      get_value_after tks fuel e i stop_on_space values (buf ++ [Value.Literal token.to_str])
    | Tokens.For =>
      get_value_after tks fuel e i stop_on_space values (buf ++ [Value.Literal token.to_str])
    | Tokens.If =>
      get_value_after tks fuel e i stop_on_space values (buf ++ [Value.Literal token.to_str])
    | Tokens.Let =>
      get_value_after tks fuel e i stop_on_space values (buf ++ [Value.Literal token.to_str])
    | Tokens.While =>
      get_value_after tks fuel e i stop_on_space values (buf ++ [Value.Literal token.to_str])
    | Tokens.StringVariable s _ =>
      let values' :=
        (if !buf.isEmpty then values ++ [Value.Values buf] else values) ++ [Value.Variable s]
      get_value_after tks fuel e i stop_on_space values' []
    | Tokens.ArrayVariable s _ =>
      let values' :=
        (if !buf.isEmpty then values ++ [Value.Values buf] else values) ++ [Value.ArrayVariable s]
      get_value_after tks fuel e i stop_on_space values' []
    | Tokens.And => PRes.err "Unexpected AND (&&)"
    | Tokens.Or => PRes.err "Unexpected OR (||)"
    | Tokens.Break =>
      get_value_after tks fuel e i stop_on_space values (buf ++ [Value.Literal token.to_str])
    | Tokens.JobCommandEnd => PRes.err "Unexpected job command end (&)"

termination_by structural fuel

/-- The shared `if self.i >= end - 1 { break } token = self.inc().…` tail of a
`get_value` loop iteration (`ast.rs` lines 542–543). -/
def get_value_after (tks : List Tokens) (fuel : Nat) (e i : Nat) (stop_on_space : Bool)
    (values : List Value) (buf : List Value) : PRes Value :=
  match fuel with
  | 0 => PRes.stuck
  | fuel + 1 =>
    if i ≥ e - 1 then gv_finish values buf i
    else
      match curTok tks (i + 1) with
      | none => PRes.stuck
      | some t => get_value_loop tks fuel e (i + 1) stop_on_space t values buf

termination_by structural fuel

/-- `Tree::get_expression` (`ast.rs` lines 558–649): entry — fetch the current
token and start the statement loop with no expression yet. -/
def get_expression (tks : List Tokens) (fuel : Nat) (e i : Nat) : PRes Expression :=
  match fuel with
  | 0 => PRes.stuck
  | fuel + 1 =>
    match curTok tks i with
    | none => PRes.stuck
    | some t => get_expression_loop tks fuel e i none t

termination_by structural fuel

/-- The main loop of `get_expression`, with the optional expression built so
far and the current token as explicit state. -/
def get_expression_loop (tks : List Tokens) (fuel : Nat) (e i : Nat)
    (expr : Option Expression) (token : Tokens) : PRes Expression :=
  match fuel with
  | 0 => PRes.stuck
  | fuel + 1 =>
    match token with
    | Tokens.Space => get_expression_tail tks fuel e (i + 1) expr
    | Tokens.CommandEnd _ =>
      match expr with
      | some x => PRes.ok x i
      | none => get_expression_tail tks fuel e (i + 1) expr
    | Tokens.Literal _ =>
      match expr with
      | some _ =>
        PRes.err "Unexpected literal. After file redirect, you need to use a semicolon or newline."
      | none =>
        PRes.bind (parse_call tks fuel e i) fun c i' =>
          get_expression_tail tks fuel e i' (some c)
    | Tokens.ExportSet => PRes.err "Unexpected token EXPORT SET (=)"
    | Tokens.Function =>
      PRes.bind (parse_function e i) fun f i' =>
        PRes.ok (Expression.Function f) i'
    | Tokens.FileRead =>
      PRes.bind (parse_read tks fuel expr e i) fun r i' =>
        get_expression_tail tks fuel e i' (some r)
    | Tokens.FileWrite =>
      PRes.bind (parse_write tks fuel expr e i) fun r i' =>
        get_expression_tail tks fuel e i' (some r)
    | Tokens.RedirectInto =>
      match expr with
      | none => PRes.err "Unexpected token REDIRECT (|)"
      | some src =>
        PRes.bind (get_expression tks fuel e (i + 1)) fun tgt i' =>
          get_expression_tail tks fuel e i' (some (Expression.RedirectTargetExpression src tgt))
    | Tokens.ParenthesisStart =>
      match expr with
      | some _ =>
        PRes.err "Unexpected parenthesis. After file redirect, you need to use a semicolon or newline."
      | none =>
        let i₁ := i + 1
        match get_parens_vals tks i₁ e with
        | none => PRes.stuck
        | some (len, lvl) =>
          if lvl ≠ 0 then PRes.err "Parenthesis not ended properly."
          else
            PRes.bind (get_expression tks fuel (i₁ + len) i₁) fun x i₂ =>
              get_expression_tail tks fuel e (i₂ + 1) (some x)
    | Tokens.ParenthesisEnd => PRes.err "Unexpected token PARENTHESIS END ())"
    | Tokens.ArrayStart => PRes.err "Arrays not yet implemented"
    | Tokens.ArrayEnd => PRes.err "Unexpected token ARRAY END (])"
    | Tokens.ArrayFunction _ => PRes.err "Unexpected array function"
    | Tokens.StringFunction _ => PRes.err "Unexpected string function"
    | Tokens.SubStart =>
      match expr with
      | some _ =>
        PRes.err "Unexpected literal. After file redirect, you need to use a semicolon or newline."
      | none =>
        PRes.bind (parse_call tks fuel e i) fun c i' =>
          get_expression_tail tks fuel e i' (some c)
    | Tokens.Else => PRes.err "Unexpected token ELSE"
    | Tokens.End => PRes.err "Unexpected token END"
    | Tokens.For =>
      match expr with
      | some _ => PRes.err "Commands must be ended properly"
      | none =>
        PRes.bind (parse_for tks fuel e i) fun f i' =>
          get_expression_tail tks fuel e i' (some f)
    | Tokens.If =>
      match expr with
      | some _ => PRes.err "Commands must be ended properly"
      | none =>
        PRes.bind (parse_if tks fuel e i) fun f i' =>
          get_expression_tail tks fuel e i' (some f)
    | Tokens.Let => parse_let tks fuel e i
    | Tokens.While => parse_while tks fuel e i
    | Tokens.StringVariable _ _ =>
      match expr with
      | some _ =>
        PRes.err "Unexpected variable. After file redirect, you need to use a semicolon or newline."
      | none =>
        PRes.bind (parse_call tks fuel e i) fun c i' =>
          get_expression_tail tks fuel e i' (some c)
    | Tokens.ArrayVariable _ _ => PRes.err "Unexpected array variable"
    | Tokens.And =>
      match expr with
      | none => PRes.err "Unexpected AND (&&)"
      | some first =>
        PRes.bind (get_expression tks fuel e (i + 1)) fun second i' =>
          get_expression_tail tks fuel e i' (some (Expression.AndExpression first second))
    | Tokens.Or =>
      match expr with
      | none => PRes.err "Unexpected OR (||)"
      | some first =>
        PRes.bind (get_expression tks fuel e (i + 1)) fun second i' =>
          get_expression_tail tks fuel e i' (some (Expression.OrExpression first second))
    | Tokens.Break =>
      match expr with
      | none =>
        PRes.bind (get_value tks fuel e (i + 1) false) fun v i' =>
          get_expression_tail tks fuel e i' (some (Expression.BreakExpression v))
      | some _ => PRes.err "Unexpected break"
    | Tokens.JobCommandEnd => PRes.err "Jobs not yet implemented"

termination_by structural fuel

/-- The `if self.i >= end - 1 { break } token = get_current_token()` tail of
a `get_expression` loop iteration (`ast.rs` lines 642–643), falling out into
the `match expr` epilogue on the bound. -/
def get_expression_tail (tks : List Tokens) (fuel : Nat) (e i : Nat)
    (expr : Option Expression) : PRes Expression :=
  match fuel with
  | 0 => PRes.stuck
  | fuel + 1 =>
    if i ≥ e - 1 then ge_finish expr i
    else
      match curTok tks i with
      | none => PRes.stuck
      | some t => get_expression_loop tks fuel e i expr t


termination_by structural fuel
end

set_option maxHeartbeats 200000

/-- The statement loop of `build_tree` (`ast.rs` lines 662–672). -/
def build_tree_loop (tks : List Tokens) (fuel : Nat) (i : Nat)
    (expressions : List Expression) : PRes (List Expression) :=
  match fuel with
  | 0 => PRes.stuck
  | fuel + 1 =>
    if i ≥ tks.length - 1 then PRes.ok expressions i
    else
      match get_expression tks fuel tks.length i with
      | PRes.ok v i' => build_tree_loop tks fuel i' (expressions ++ [v])
      | PRes.err m =>
        if m = "No expression found" then PRes.ok expressions i else PRes.err m
      | PRes.stuck => PRes.stuck

/-- `build_tree` (`ast.rs` lines 658–675).  On an empty token vector the
source's `tree.tokens.len() - 1` underflows (a debug-build panic), modelled
as `stuck`. -/
def build_tree (tks : List Tokens) (fuel : Nat) : PRes (List Expression) :=
  if tks.isEmpty then PRes.stuck else build_tree_loop tks fuel 0 []

/-! ## Execution context (`vars.rs` lines 157–340) -/

/-- Association-list lookup standing in for `HashMap::get`. -/
def assocGet {α : Type} (l : List (String × α)) (k : String) : Option α :=
  (l.find? (fun p => p.1 == k)).map (fun p => p.2)

/-- Association-list insert standing in for `HashMap::insert`: replaces the
value under an existing key, otherwise appends. -/
def assocSet {α : Type} (l : List (String × α)) (k : String) (v : α) :
    List (String × α) :=
  if (l.find? (fun p => p.1 == k)).isSome then
    l.map (fun p => if p.1 == k then (k, v) else p)
  else l ++ [(k, v)]

/-- `Scope` (`vars.rs` lines 181–192).  The three stream-override fields are
typed `Option<PipeReader/PipeWriter>` in the source; nothing in `exec.rs` ever
writes them (they stay `None` from `add_scope`), so the model carries them as
`Option Unit`. -/
structure Scope where
  vars : List (String × Variable)
  func : List (String × FunctionDefinitionExpression)
  fd : List Nat
  stdin_override : Option Unit
  stdout_override : Option Unit
  stderr_override : Option Unit

/-- The fresh scope pushed by `Context::add_scope`. -/
def emptyScope : Scope :=
  { vars := [], func := [], fd := [],
    stdin_override := none, stdout_override := none, stderr_override := none }

/-- `Context` (`vars.rs` lines 194–205).  `native_func` maps names to Rust
function pointers in the source; the model keeps the set of registered names
and dispatches through `execNative` below (the embedding of the fixed
registry in `nativeFunctions.rs`).  `break_num` / `continue_num` are `u16`;
they are only ever assigned a parsed `u16` value or decremented, so plain
`Nat` needs no wrap. -/
structure Context where
  scopes : List Scope
  exports : List (String × Variable)
  native_func : List String
  break_num : Nat
  continue_num : Nat

/-- `Context::new` (`vars.rs` lines 208–218): empty context plus one initial
scope. -/
def Context.new : Context :=
  { scopes := [emptyScope], exports := [], native_func := [],
    break_num := 0, continue_num := 0 }

/-- `Context::add_scope` (`vars.rs` lines 222–232): push a fresh scope; the
innermost scope is the last element. -/
def Context.add_scope (ctx : Context) : Context :=
  { ctx with scopes := ctx.scopes ++ [emptyScope] }

/-- `Context::pop_scope` (`vars.rs` lines 219–221): `Vec::pop`, a no-op on an
empty stack (the returned scope is dropped by every caller). -/
def Context.pop_scope (ctx : Context) : Context :=
  { ctx with scopes := ctx.scopes.dropLast }

/-- `Context::get_var` (`vars.rs` lines 234–255): `env::`-prefixed names read
from `exports` (with the prefix removed — `str::replace` of every occurrence),
others from the scope stack innermost-first. -/
def Context.get_var (ctx : Context) (var : String) : Option Variable :=
  if var.startsWith "env::" then
    assocGet ctx.exports (var.replace "env::" "")
  else
    ctx.scopes.reverse.findSome? (fun scope => assocGet scope.vars var)

/-- `Context::set_var` (`vars.rs` lines 265–272): insert into the innermost
scope (`scopes.last_mut().unwrap()` — `none` models the panic on an empty
stack); an `env::`-prefixed key is additionally mirrored, stripped and
stringified, into `exports`. -/
def Context.set_var (ctx : Context) (key : String) (val : Variable) : Option Context :=
  match ctx.scopes.getLast? with
  | none => none
  | some last =>
    let exports :=
      if key.startsWith "env::" then
        assocSet ctx.exports (key.replace "env::" "") (Variable.String val.display)
      else ctx.exports
    let last' := { last with vars := assocSet last.vars key val }
    some { ctx with scopes := ctx.scopes.dropLast ++ [last'], exports := exports }

/-- `AnyFunction` (`vars.rs` lines 170–173), with the native side reduced to
the registered name (dispatched by `execNative`). -/
inductive AnyFunction where
  | Native (name : String)
  | UserDefined (f : FunctionDefinitionExpression)

/-- `Context::get_func` (`vars.rs` lines 274–293): user-defined functions in
the scope stack innermost-first, then the native registry. -/
def Context.get_func (ctx : Context) (key : String) : Option AnyFunction :=
  match ctx.scopes.reverse.findSome? (fun scope => assocGet scope.func key) with
  | some f => some (AnyFunction.UserDefined f)
  | none => if ctx.native_func.contains key then some (AnyFunction.Native key) else none

/-! ## Native built-ins (`nativeFunctions.rs`) -/

/-- Rust `u16::from_str` as used for `break [n]`. -/
def parseU16 (s : String) : Option Nat := parseUnsigned (2 ^ 16) s

/-- The key set of the map built by `get_native_functions`
(`nativeFunctions.rs`); `main.rs` installs exactly this registry. -/
def get_native_functions : List String := ["$trim", "test", "true", "false", "export", "typeof"]

/-- `rush_typeof`'s variant-name table. -/
def typeofName : Variable → String
  | Variable.String _ => "string"
  | Variable.I32 _ => "i32"
  | Variable.I64 _ => "i64"
  | Variable.I128 _ => "i128"
  | Variable.U32 _ => "u32"
  | Variable.U64 _ => "u64"
  | Variable.U128 _ => "u128"
  | Variable.F32 _ => "f32"
  | Variable.F64 _ => "f64"
  | Variable.Bool _ => "bool"
  | Variable.Array _ => "array"
  | Variable.HMap _ => "HMap"

/-- The native functions of `nativeFunctions.rs`, dispatched by registry key.
Each takes the context by `&mut`, so the result carries the possibly updated
context; the outer `Option` models panics (`set_var` on an empty scope stack)
and is `none` on an unregistered name (unreachable through `get_func`).
`$trim` uses Rust `str::trim`, modelled with Lean's whitespace trim (the two
agree on ASCII whitespace). -/
def execNative (name : String) (ctx : Context) (args : List Variable) :
    Option (Res (Variable × Context)) :=
  match name with
  | "$trim" => some (Except.ok (Variable.String (variables_to_string args).trim, ctx))
  | "test" =>
    match args with
    | [source, operand, target] =>
      match operand with
      | Variable.String op =>
        if op = "=" then
          some (Except.ok
            (Variable.I32 (if source.display = target.display then 0 else 1), ctx))
        else if op = "!=" then
          some (Except.ok
            (Variable.I32 (if source.display ≠ target.display then 0 else 1), ctx))
        else some (Except.error ("Unsupported operand: " ++ op))
      | other => some (Except.error ("Unsupported operand: " ++ other.display))
    | _ =>
      some (Except.error
        ("Expected 3 arguments (source, operand, target), got " ++ toString args.length))
  | "true" => some (Except.ok (Variable.I32 0, ctx))
  | "false" => some (Except.ok (Variable.I32 1, ctx))
  | "export" =>
    match args with
    | [nameArg] =>
      match ctx.get_var nameArg.display with
      | some value =>
        some (Except.ok (Variable.I32 0,
          { ctx with exports := assocSet ctx.exports nameArg.display value }))
      | none => some (Except.ok (Variable.I32 1, ctx))
    | [nameArg, _, value] =>
      match ctx.set_var nameArg.display value with
      | some ctx' => some (Except.ok (Variable.I32 0, ctx'))
      | none => none
    | _ =>
      some (Except.error
        ("Expected 1 (name) or 3 (name = value) arguments, got " ++ toString args.length))
  | "typeof" =>
    match args with
    | [arg] => some (Except.ok (Variable.String (typeofName arg), ctx))
    | _ => some (Except.error ("Expected 1 argument, got " ++ toString args.length))
  | _ => none

/-! ## Executor (`exec.rs`)

The executor spawns external processes; the model abstracts the operating
system as a deterministic oracle `Env` (spawn outcome per program name and
argument list, captured output, file creation/opening success) and records
every observable OS interaction in an event log, so that theorems can speak
about which programs were spawned, how often, and in which order.

`Expression::exec` returns `Result<Option<Command>>`; `RCommand` models the
`std::process::Command` builder with the fields the source actually sets.
The source's `exec` methods take the AST by `&mut` and
`Vec<CommandValue>::exec` removes the program word from the vector, so a
`Command` node executed a second time has lost its first word; the model
treats the AST as immutable, which coincides with the source whenever each
`Command` node is executed at most once (true of every program considered in
the theorems below — loop bodies here contain no `Command` nodes). -/

/-- The `std::process::Command` builder as configured by `exec.rs`:
program, arguments, whether `stdout(Stdio::piped())` was set, and what the
stdin was wired to. -/
inductive StdinSrc where
  | pipedFrom (program : String)
  | file (path : String)

/-- See `StdinSrc`. -/
structure RCommand where
  program : String
  args : List String
  stdoutPiped : Bool
  stdin : Option StdinSrc

/-- `Command::new` (program only). -/
def RCommand.new (program : String) : RCommand :=
  { program := program, args := [], stdoutPiped := false, stdin := none }

/-- Outcome of `Command::spawn()` followed (where the source does so) by
`wait()`: either the spawn itself fails, or the child runs and its eventual
exit status has `code()` equal to the given value (`none` models death by
signal; `success()` is `code = some 0`). -/
inductive SpawnOutcome where
  | err
  | runs (code : Option Int)

/-- The operating-system oracle: what each program does when spawned, what
`Command::output()` captures, and whether file creation / opening succeeds.
The oracle is deterministic per program and argument list — sufficient for
every behaviour the claims quantify over. -/
structure Env where
  spawn : String → List String → SpawnOutcome
  output : String → List String → Option String
  fileCreate : String → Bool
  fileOpen : String → Bool

/-- Observable OS interactions, in order: a `spawn()` attempt, a `wait()`
returning the given `code()`, and a `Command::output()` capture. -/
inductive Event where
  | spawned (program : String) (args : List String)
  | waited (program : String) (code : Option Int)
  | outputRead (program : String) (args : List String)
deriving DecidableEq, Repr

/-- Outcome of an executor routine: success / `anyhow` error (each carrying
the context and event log as mutated so far — errors propagate through `?`
with the `&mut Context` already updated), or `stuck` for a Rust panic /
`todo!` (also used for exhaustion of the model's step budget). -/
inductive ERes (α : Type) where
  | ok (a : α) (ctx : Context) (log : List Event)
  | err (msg : String) (ctx : Context) (log : List Event)
  | stuck

/-- Monadic bind on `ERes` (`?` in the source). -/
def ERes.bind {α β : Type} : ERes α → (α → Context → List Event → ERes β) → ERes β
  | ERes.ok a ctx log, f => f a ctx log
  | ERes.err m ctx log, _ => ERes.err m ctx log
  | ERes.stuck, _ => ERes.stuck

mutual

/-- `impl GetValue for Value` (`exec.rs` lines 109–151). -/
def valueGet (env : Env) (fuel : Nat) (v : Value) (ctx : Context) (log : List Event) :
    ERes Variable :=
  match fuel with
  | 0 => ERes.stuck
  | fuel + 1 =>
    match v with
    | Value.Literal s => ERes.ok (Variable.String s) ctx log
    | Value.Variable name =>
      ERes.ok ((ctx.get_var name).getD (Variable.String "")) ctx log
    | Value.ArrayVariable name =>
      ERes.ok ((ctx.get_var name).getD (Variable.Array [])) ctx log
    | Value.Expressions expressions =>
      subCapture env fuel expressions "" (ctx.add_scope) log
    | Value.Values vec => valuesToArray env fuel vec [] ctx log
    | Value.ArrayDefinition vec => valuesToArray env fuel vec [] ctx log
    | Value.ValueFunction (DefinedFunctionCall.mk name callArgs) =>
      ERes.bind (getVariables env fuel callArgs [] ctx log) fun args ctx₁ log₁ =>
        match ctx₁.get_func name with
        | none => ERes.err ("Function " ++ name ++ " not found") ctx₁ log₁
        | some (AnyFunction.UserDefined _) => ERes.stuck
        | some (AnyFunction.Native nm) =>
          match execNative nm ctx₁ args with
          | none => ERes.stuck
          | some (Except.ok (res, ctx₂)) => ERes.ok res ctx₂ log₁
          | some (Except.error m) => ERes.err m ctx₁ log₁

/-- The command-substitution loop of the `Value::Expressions` arm (`exec.rs`
lines 117–130): run each expression, capture `cmd.output()` of any produced
command into the string accumulator, pop the scope only after a normal
finish. -/
def subCapture (env : Env) (fuel : Nat) (expressions : List Expression)
    (out : String) (ctx : Context) (log : List Event) : ERes Variable :=
  match fuel with
  | 0 => ERes.stuck
  | fuel + 1 =>
    match expressions with
    | [] => ERes.ok (Variable.String out) ctx.pop_scope log
    | expr :: rest =>
      ERes.bind (execExpr env fuel expr ctx log) fun res ctx₁ log₁ =>
        match res with
        | none => subCapture env fuel rest out ctx₁ log₁
        | some cmd =>
          let log₂ := log₁ ++ [Event.outputRead cmd.program cmd.args]
          match env.output cmd.program cmd.args with
          | some s => subCapture env fuel rest (out ++ s) ctx₁ log₂
          | none => ERes.err "Failed to read output of command" ctx₁ log₂

/-- The element loop shared by the `Values` / `ArrayDefinition` arms
(`exec.rs` lines 132–138). -/
def valuesToArray (env : Env) (fuel : Nat) (vec : List Value) (acc : List Variable)
    (ctx : Context) (log : List Event) : ERes Variable :=
  match fuel with
  | 0 => ERes.stuck
  | fuel + 1 =>
    match vec with
    | [] => ERes.ok (Variable.Array acc) ctx log
    | v :: rest =>
      ERes.bind (valueGet env fuel v ctx log) fun var ctx₁ log₁ =>
        valuesToArray env fuel rest (acc ++ [var]) ctx₁ log₁

/-- `get_variables` (`exec.rs` lines 153–159). -/
def getVariables (env : Env) (fuel : Nat) (args : List Value) (acc : List Variable)
    (ctx : Context) (log : List Event) : ERes (List Variable) :=
  match fuel with
  | 0 => ERes.stuck
  | fuel + 1 =>
    match args with
    | [] => ERes.ok acc ctx log
    | v :: rest =>
      ERes.bind (valueGet env fuel v ctx log) fun var ctx₁ log₁ =>
        getVariables env fuel rest (acc ++ [var]) ctx₁ log₁

/-- `impl GetValue for CommandValue` (`exec.rs` lines 100–107). -/
def commandValueGet (env : Env) (fuel : Nat) (cv : CommandValue) (ctx : Context)
    (log : List Event) : ERes Variable :=
  match fuel with
  | 0 => ERes.stuck
  | fuel + 1 =>
    match cv with
    | CommandValue.Value val => valueGet env fuel val ctx log
    | CommandValue.Var _ _ => ERes.err "Broken executor" ctx log

/-- `impl ExecExpression for Expression` (`exec.rs` lines 161–180): the
dispatch.  `JobCommand`, `Function` and `ForExpression` hit `todo!` in the
source — an unconditional panic, before any `break_num` check. -/
def execExpr (env : Env) (fuel : Nat) (e : Expression) (ctx : Context)
    (log : List Event) : ERes (Option RCommand) :=
  match fuel with
  | 0 => ERes.stuck
  | fuel + 1 =>
    match e with
    | Expression.LetExpression key _ value => letExec env fuel key value ctx log
    | Expression.Command values => commandExec env fuel values ctx log
    | Expression.JobCommand _ => ERes.stuck
    | Expression.Function _ => ERes.stuck
    | Expression.IfExpression c cs es => ifExec env fuel c cs es ctx log
    | Expression.WhileExpression c cs => whileExec env fuel c cs ctx log
    | Expression.ForExpression _ _ _ _ _ => ERes.stuck
    | Expression.RedirectTargetExpression s t => redirectTargetExec env fuel s t ctx log
    | Expression.FileTargetExpression s t => fileTargetExec env fuel s t ctx log
    | Expression.FileSourceExpression s t => fileSourceExec env fuel s t ctx log
    | Expression.Expressions es => execList env fuel es ctx log
    | Expression.OrExpression a b => orExec env fuel a b ctx log
    | Expression.AndExpression a b => andExec env fuel a b ctx log
    | Expression.BreakExpression num => breakExec env fuel num ctx log

/-- `impl ExecExpression for BreakExpression` (`exec.rs` lines 182–190).
With `break_num` already positive: decrement and yield nothing, without
touching the operand.  Otherwise evaluate the operand, default the empty
string to 1, parse as `u16` (`?` on failure), treat 0 as 1, and store. -/
def breakExec (env : Env) (fuel : Nat) (num : Value) (ctx : Context)
    (log : List Event) : ERes (Option RCommand) :=
  match fuel with
  | 0 => ERes.stuck
  | fuel + 1 =>
    if ctx.break_num > 0 then
      ERes.ok none { ctx with break_num := ctx.break_num - 1 } log
    else
      ERes.bind (valueGet env fuel num ctx log) fun v ctx₁ log₁ =>
        let val := v.display
        match (if val ≠ "" then parseU16 val else some 1) with
        | none => ERes.err "invalid digit found in string" ctx₁ log₁
        | some n =>
          ERes.ok none { ctx₁ with break_num := if n = 0 then 1 else n } log₁

/-- `impl ExecExpression for WhileExpression` (`exec.rs` lines 192–225).
With `break_num` positive on entry: decrement and skip the whole body.
Otherwise build the condition command once, push a scope, run the loop, and
pop the scope on a normal exit (an error from the body propagates through `?`
before `pop_scope` is reached). -/
def whileExec (env : Env) (fuel : Nat) (condition : Expression)
    (contents : List Expression) (ctx : Context) (log : List Event) :
    ERes (Option RCommand) :=
  match fuel with
  | 0 => ERes.stuck
  | fuel + 1 =>
    if ctx.break_num > 0 then
      ERes.ok none { ctx with break_num := ctx.break_num - 1 } log
    else
      ERes.bind (execExpr env fuel condition ctx log) fun condOpt ctx₁ log₁ =>
        match condOpt with
        | none => ERes.err "Invalid while expression" ctx₁ log₁
        | some cond =>
          match whileLoop env fuel cond contents ctx₁.add_scope log₁ with
          | ERes.ok res ctx₂ log₂ => ERes.ok res ctx₂.pop_scope log₂
          | ERes.err m c l => ERes.err m c l
          | ERes.stuck => ERes.stuck

/-- The iteration loop of `WhileExpression::exec` (`exec.rs` lines 201–220):
spawn the (single, reused) condition command; on a spawn error or a
non-success exit the condition command itself becomes the result; otherwise
run the body, and consume one pending `break` at the bottom of the
iteration. -/
def whileLoop (env : Env) (fuel : Nat) (cond : RCommand)
    (contents : List Expression) (ctx : Context) (log : List Event) :
    ERes (Option RCommand) :=
  match fuel with
  | 0 => ERes.stuck
  | fuel + 1 =>
    let log₁ := log ++ [Event.spawned cond.program cond.args]
    match env.spawn cond.program cond.args with
    | SpawnOutcome.err => ERes.ok (some cond) ctx log₁
    | SpawnOutcome.runs code =>
      let log₂ := log₁ ++ [Event.waited cond.program code]
      if code ≠ some 0 then ERes.ok (some cond) ctx log₂
      else
        ERes.bind (execList env fuel contents ctx log₂) fun res ctx₁ log₃ =>
          if ctx₁.break_num > 0 then
            ERes.ok res { ctx₁ with break_num := ctx₁.break_num - 1 } log₃
          else whileLoop env fuel cond contents ctx₁ log₃

/-- `impl ExecExpression for IfExpression` (`exec.rs` lines 227–251).  With
`break_num` positive: yield nothing, leaving everything unchanged.  Otherwise
spawn the condition command; a spawn error or non-success selects the else
branch.  The scope around the branch is popped only on a normal exit. -/
def ifExec (env : Env) (fuel : Nat) (condition : Expression)
    (contents else_contents : List Expression) (ctx : Context) (log : List Event) :
    ERes (Option RCommand) :=
  match fuel with
  | 0 => ERes.stuck
  | fuel + 1 =>
    if ctx.break_num > 0 then ERes.ok none ctx log
    else
      ERes.bind (execExpr env fuel condition ctx log) fun condOpt ctx₁ log₁ =>
        match condOpt with
        | none => ERes.err "Invalid IF expression" ctx₁ log₁
        | some cond =>
          let ctx₂ := ctx₁.add_scope
          let log₂ := log₁ ++ [Event.spawned cond.program cond.args]
          let branch :=
            match env.spawn cond.program cond.args with
            | SpawnOutcome.err => execList env fuel else_contents ctx₂ log₂
            | SpawnOutcome.runs code =>
              let log₃ := log₂ ++ [Event.waited cond.program code]
              if code ≠ some 0 then execList env fuel else_contents ctx₂ log₃
              else execList env fuel contents ctx₂ log₃
          match branch with
          | ERes.ok res ctx₃ log₄ => ERes.ok res ctx₃.pop_scope log₄
          | ERes.err m c l => ERes.err m c l
          | ERes.stuck => ERes.stuck

/-- `impl ExecExpression for LetExpression` (`exec.rs` lines 253–261). -/
def letExec (env : Env) (fuel : Nat) (key value : Value) (ctx : Context)
    (log : List Event) : ERes (Option RCommand) :=
  match fuel with
  | 0 => ERes.stuck
  | fuel + 1 =>
    if ctx.break_num > 0 then ERes.ok none ctx log
    else
      ERes.bind (valueGet env fuel key ctx log) fun keyVar ctx₁ log₁ =>
        ERes.bind (valueGet env fuel value ctx₁ log₁) fun val ctx₂ log₂ =>
          match ctx₂.set_var keyVar.display val with
          | none => ERes.stuck
          | some ctx₃ => ERes.ok none ctx₃ log₂

/-- `impl ExecExpression for Vec<CommandValue>` (`exec.rs` lines 263–275):
build the `Command` from the first word and the stringified arguments. -/
def commandExec (env : Env) (fuel : Nat) (values : List CommandValue) (ctx : Context)
    (log : List Event) : ERes (Option RCommand) :=
  match fuel with
  | 0 => ERes.stuck
  | fuel + 1 =>
    if ctx.break_num > 0 then ERes.ok none ctx log
    else
      match values with
      | [] => ERes.err "Command with 0 length" ctx log
      | first :: rest =>
        ERes.bind (commandValueGet env fuel first ctx log) fun v ctx₁ log₁ =>
          commandArgs env fuel rest (RCommand.new v.display) ctx₁ log₁

/-- The argument loop of `Vec<CommandValue>::exec` (`exec.rs` lines 270–272). -/
def commandArgs (env : Env) (fuel : Nat) (values : List CommandValue) (cmd : RCommand)
    (ctx : Context) (log : List Event) : ERes (Option RCommand) :=
  match fuel with
  | 0 => ERes.stuck
  | fuel + 1 =>
    match values with
    | [] => ERes.ok (some cmd) ctx log
    | cv :: rest =>
      ERes.bind (commandValueGet env fuel cv ctx log) fun v ctx₁ log₁ =>
        commandArgs env fuel rest { cmd with args := cmd.args ++ [v.display] } ctx₁ log₁

/-- `impl ExecExpression for RedirectTargetExpression` (`exec.rs` lines
277–292): evaluate both sides (`unwrap` panic on an empty side), pipe the
source's stdout, spawn the source now, wire the target's stdin, and yield the
target. -/
def redirectTargetExec (env : Env) (fuel : Nat) (source target : Expression)
    (ctx : Context) (log : List Event) : ERes (Option RCommand) :=
  match fuel with
  | 0 => ERes.stuck
  | fuel + 1 =>
    if ctx.break_num > 0 then ERes.ok none ctx log
    else
      ERes.bind (execExpr env fuel source ctx log) fun srcOpt ctx₁ log₁ =>
        match srcOpt with
        | none => ERes.stuck
        | some src0 =>
          ERes.bind (execExpr env fuel target ctx₁ log₁) fun tgtOpt ctx₂ log₂ =>
            match tgtOpt with
            | none => ERes.stuck
            | some tgt =>
              let src := { src0 with stdoutPiped := true }
              let log₃ := log₂ ++ [Event.spawned src.program src.args]
              match env.spawn src.program src.args with
              | SpawnOutcome.err => ERes.ok (some tgt) ctx₂ log₃
              | SpawnOutcome.runs _ =>
                ERes.ok
                  (some { tgt with stdin := some (StdinSrc.pipedFrom src.program) })
                  ctx₂ log₃

/-- `impl ExecExpression for FileTargetExpression` (`exec.rs` lines 294–328):
evaluate the target name, then the source expression (`todo!` when absent —
`stuck`); pipe and spawn the source, copy its stdout into the created file
(file-creation and spawn failures are printed, not returned), and yield the
source command. -/
def fileTargetExec (env : Env) (fuel : Nat) (source : Option Expression)
    (target : Value) (ctx : Context) (log : List Event) : ERes (Option RCommand) :=
  match fuel with
  | 0 => ERes.stuck
  | fuel + 1 =>
    if ctx.break_num > 0 then ERes.ok none ctx log
    else
      ERes.bind (valueGet env fuel target ctx log) fun tgtVar ctx₁ log₁ =>
        match source with
        | none => ERes.stuck
        | some srcExpr =>
          ERes.bind (execExpr env fuel srcExpr ctx₁ log₁) fun srcOpt ctx₂ log₂ =>
            match srcOpt with
            | none => ERes.err "Invalid command provided for file target" ctx₂ log₂
            | some cmd0 =>
              let cmd := { cmd0 with stdoutPiped := true }
              if env.fileCreate tgtVar.display then
                let log₃ := log₂ ++ [Event.spawned cmd.program cmd.args]
                ERes.ok (some cmd) ctx₂ log₃
              else ERes.ok (some cmd) ctx₂ log₂

/-- `impl ExecExpression for FileSourceExpression` (`exec.rs` lines 330–352):
evaluate the file name, evaluate the target expression (default `less`; an
empty target result is an error), open the file (`bail!` on failure) and wire
it to the command's stdin. -/
def fileSourceExec (env : Env) (fuel : Nat) (source : Value)
    (target : Option Expression) (ctx : Context) (log : List Event) :
    ERes (Option RCommand) :=
  match fuel with
  | 0 => ERes.stuck
  | fuel + 1 =>
    if ctx.break_num > 0 then ERes.ok none ctx log
    else
      ERes.bind (valueGet env fuel source ctx log) fun srcVar ctx₁ log₁ =>
        let path := srcVar.display
        let targetRes :=
          match target with
          | some expr =>
            ERes.bind (execExpr env fuel expr ctx₁ log₁) fun tOpt ctx₂ log₂ =>
              match tOpt with
              | none => ERes.err "Invalid command" ctx₂ log₂
              | some cmd => ERes.ok cmd ctx₂ log₂
          | none => ERes.ok (RCommand.new "less") ctx₁ log₁
        ERes.bind targetRes fun cmd ctx₃ log₃ =>
          if env.fileOpen path then
            ERes.ok (some { cmd with stdin := some (StdinSrc.file path) }) ctx₃ log₃
          else ERes.err "Cannot open file" ctx₃ log₃

/-- `impl ExecExpression for Vec<Expression>` (`exec.rs` lines 355–365): run
the expressions in order, returning early (with the last result) as soon as a
`break` is pending. -/
def execList (env : Env) (fuel : Nat) (es : List Expression) (ctx : Context)
    (log : List Event) : ERes (Option RCommand) :=
  match fuel with
  | 0 => ERes.stuck
  | fuel + 1 =>
    if ctx.break_num > 0 then ERes.ok none ctx log
    else execListLoop env fuel es none ctx log

/-- The `for expr in self` loop of `Vec<Expression>::exec`. -/
def execListLoop (env : Env) (fuel : Nat) (es : List Expression)
    (last : Option RCommand) (ctx : Context) (log : List Event) :
    ERes (Option RCommand) :=
  match fuel with
  | 0 => ERes.stuck
  | fuel + 1 =>
    match es with
    | [] => ERes.ok last ctx log
    | e :: rest =>
      ERes.bind (execExpr env fuel e ctx log) fun r ctx₁ log₁ =>
        if ctx₁.break_num > 0 then ERes.ok r ctx₁ log₁
        else execListLoop env fuel rest r ctx₁ log₁

/-- `impl ExecExpression for OrExpression` (`exec.rs` lines 367–389): spawn
and wait the left command; on success the LEFT command itself is the result
(handed back to the caller, which will spawn it again); on a spawn error or
non-success exit the right operand is executed. -/
def orExec (env : Env) (fuel : Nat) (first second : Expression) (ctx : Context)
    (log : List Event) : ERes (Option RCommand) :=
  match fuel with
  | 0 => ERes.stuck
  | fuel + 1 =>
    if ctx.break_num > 0 then ERes.ok none ctx log
    else
      ERes.bind (execExpr env fuel first ctx log) fun firstOpt ctx₁ log₁ =>
        match firstOpt with
        | none => ERes.err "Invalid OR expression" ctx₁ log₁
        | some firstCmd =>
          let log₂ := log₁ ++ [Event.spawned firstCmd.program firstCmd.args]
          match env.spawn firstCmd.program firstCmd.args with
          | SpawnOutcome.err => execExpr env fuel second ctx₁ log₂
          | SpawnOutcome.runs code =>
            let log₃ := log₂ ++ [Event.waited firstCmd.program code]
            if code = some 0 then ERes.ok (some firstCmd) ctx₁ log₃
            else execExpr env fuel second ctx₁ log₃

/-- `impl ExecExpression for AndExpression` (`exec.rs` lines 391–413): spawn
and wait the left command; on success the right operand is executed; on a
spawn error or non-success exit the LEFT command itself is the result (handed
back to the caller, which will spawn it again). -/
def andExec (env : Env) (fuel : Nat) (first second : Expression) (ctx : Context)
    (log : List Event) : ERes (Option RCommand) :=
  match fuel with
  | 0 => ERes.stuck
  | fuel + 1 =>
    if ctx.break_num > 0 then ERes.ok none ctx log
    else
      ERes.bind (execExpr env fuel first ctx log) fun firstOpt ctx₁ log₁ =>
        match firstOpt with
        | none => ERes.err "Invalid AND expression" ctx₁ log₁
        | some firstCmd =>
          let log₂ := log₁ ++ [Event.spawned firstCmd.program firstCmd.args]
          match env.spawn firstCmd.program firstCmd.args with
          | SpawnOutcome.err => ERes.ok (some firstCmd) ctx₁ log₂
          | SpawnOutcome.runs code =>
            let log₃ := log₂ ++ [Event.waited firstCmd.program code]
            if code ≠ some 0 then ERes.ok (some firstCmd) ctx₁ log₃
            else execExpr env fuel second ctx₁ log₃

end

/-- `exec_tree` (`exec.rs` lines 415–433): execute each top-level expression;
spawn and wait any produced command, recording its exit code (dead by signal
→ 1) in the variable `?`; fail when a `break` survives past a statement. -/
def exec_tree (env : Env) (fuel : Nat) (tree : List Expression) (ctx : Context)
    (log : List Event) : ERes Unit :=
  match fuel with
  | 0 => ERes.stuck
  | fuel + 1 =>
    match tree with
    | [] => ERes.ok () ctx log
    | e :: rest =>
      ERes.bind (execExpr env fuel e ctx log) fun cmdOpt ctx₁ log₁ =>
        let afterSpawn : ERes Unit :=
          match cmdOpt with
          | none => ERes.ok () ctx₁ log₁
          | some cmd =>
            let log₂ := log₁ ++ [Event.spawned cmd.program cmd.args]
            match env.spawn cmd.program cmd.args with
            | SpawnOutcome.err => ERes.ok () ctx₁ log₂
            | SpawnOutcome.runs code =>
              let log₃ := log₂ ++ [Event.waited cmd.program code]
              match ctx₁.set_var "?" (Variable.I32 (code.getD 1)) with
              | none => ERes.stuck
              | some ctx₂ => ERes.ok () ctx₂ log₃
        ERes.bind afterSpawn fun _ ctx₃ log₄ =>
          if ctx₃.break_num > 0 then ERes.err "Too many break statements" ctx₃ log₄
          else exec_tree env fuel rest ctx₃ log₄

/-! ## Specification-side helpers for the theorems -/

/-- The `Expression` constructors whose `exec` is implemented — the dispatch
in `Expression::exec` hits `todo!` (an unconditional panic) for `JobCommand`,
`Function` and `ForExpression`, none of which the tree builder can produce
(`parse_function` and the `JobCommandEnd` arm bail, and the lexer never emits
a `For` token). -/
def isImplementedExec : Expression → Bool
  | Expression.JobCommand _ => false
  | Expression.Function _ => false
  | Expression.ForExpression _ _ _ _ _ => false
  | _ => true

/-- The implemented `Expression` constructors other than the loop
(`WhileExpression`) and `BreakExpression`: exactly the ones whose exec, under
a pending `break`, short-circuits without touching any context state. -/
def isNonLoopShortCircuit : Expression → Bool
  | Expression.JobCommand _ => false
  | Expression.Function _ => false
  | Expression.ForExpression _ _ _ _ _ => false
  | Expression.WhileExpression _ _ => false
  | Expression.BreakExpression _ => false
  | _ => true

/-- A one-word command expression, for concrete programs in the theorems. -/
def word (p : String) : Expression :=
  Expression.Command [CommandValue.Value (Value.Literal p)]

/-- The context a fresh session reaches after one spawned command recorded
exit code `n` into `?`: `Context.new` with `?` bound in the single scope. -/
def qmarkCtx (n : Int) : Context :=
  { scopes := [{ emptyScope with vars := [("?", Variable.I32 n)] }],
    exports := [], native_func := [], break_num := 0, continue_num := 0 }

/-- A concrete deterministic OS oracle for closed scenarios: the program
`false` exits 1, every other program runs and exits 0; captured output is
empty; file operations succeed. -/
def envDemo : Env :=
  { spawn := fun p _ =>
      if p = "false" then SpawnOutcome.runs (some 1) else SpawnOutcome.runs (some 0),
    output := fun _ _ => some "",
    fileCreate := fun _ => true,
    fileOpen := fun _ => true }

/-! ## Helper lemmas -/

theorem intercalate_go_append (s : String) :
    ∀ (ys : List String) (a b : String),
      String.intercalate.go (a ++ b) s ys = a ++ String.intercalate.go b s ys
  | [], _, _ => rfl
  | z :: zs, a, b => by
    show String.intercalate.go (a ++ b ++ s ++ z) s zs
        = a ++ String.intercalate.go (b ++ s ++ z) s zs
    simp only [String.append_assoc]
    exact intercalate_go_append s zs a (b ++ (s ++ z))

theorem intercalate_go_cons (s a y : String) (ys : List String) :
    String.intercalate.go a s (y :: ys) = a ++ s ++ String.intercalate.go y s ys := by
  show String.intercalate.go (a ++ s ++ y) s ys = a ++ s ++ String.intercalate.go y s ys
  exact intercalate_go_append s ys (a ++ s) y

theorem displayJoin_eq_intercalate (vs : List Variable) :
    displayJoin vs = String.intercalate " " (vs.map Variable.display) := by
  induction vs with
  | nil => rfl
  | cons v rest ih =>
    cases rest with
    | nil => rfl
    | cons w rest' =>
      show Variable.display v ++ " " ++ displayJoin (w :: rest')
          = String.intercalate.go (Variable.display v) " "
              (List.map Variable.display (w :: rest'))
      rw [ih, List.map, intercalate_go_cons]
      rfl

theorem arrGet_ok_iff (arr : List Variable) (n : Nat) :
    (∃ r, arrGet arr n = Except.ok r) ↔ n < arr.length := by
  unfold arrGet
  cases h : arr.get? n with
  | none =>
    rw [List.get?_eq_none] at h
    simp only [reduceCtorEq, exists_false, false_iff, not_lt]
    exact h
  | some val =>
    have hlt : n < arr.length := by
      by_contra hge
      rw [List.get?_eq_none.mpr (by omega)] at h
      exact Option.noConfusion h
    simp only [hlt, iff_true]
    exact ⟨val, rfl⟩

theorem lexStep_single_quoted (text : List Char) (i : Nat) (st : LexState) (c : Char)
    (hq : st.quote_active = true) (he : st.escape_active = false)
    (hc1 : c ≠ '\\') (hc2 : c ≠ '\'') :
    lexStep text i c st = some { st with escape_active := false, buf := st.buf ++ [c] } := by
  obtain ⟨q, dq, esc, buf, tks, sk⟩ := st
  replace hq : q = true := hq
  replace he : esc = false := he
  subst hq; subst he
  unfold lexStep
  by_cases h1 : c = '"'
  · subst h1; rfl
  rw [if_neg h1, if_neg hc2]
  by_cases h3 : c = '$'
  · subst h3; rfl
  rw [if_neg h3]
  by_cases h4 : c = ' '
  · subst h4; rfl
  rw [if_neg h4]
  by_cases h5 : c = '('
  · subst h5; rfl
  rw [if_neg h5]
  by_cases h6 : c = ')'
  · subst h6; rfl
  rw [if_neg h6]
  by_cases h7 : c = 'i'
  · subst h7; rfl
  rw [if_neg h7]
  by_cases h8 : c = 'e'
  · subst h8; rfl
  rw [if_neg h8]
  by_cases h9 : c = 'l'
  · subst h9; rfl
  rw [if_neg h9]
  by_cases h10 : c = 'w'
  · subst h10; rfl
  rw [if_neg h10]
  by_cases h11 : c = 'f'
  · subst h11; rfl
  rw [if_neg h11]
  by_cases h12 : c = '|'
  · subst h12; rfl
  rw [if_neg h12]
  by_cases h13 : c = '&'
  · subst h13; rfl
  rw [if_neg h13]
  by_cases h14 : c = '>'
  · subst h14; rfl
  rw [if_neg h14]
  by_cases h15 : c = '<'
  · subst h15; rfl
  rw [if_neg h15]
  by_cases h16 : c = ';' ∨ c = '\n'
  · rcases h16 with h16 | h16 <;> (subst h16; rfl)
  rw [if_neg h16]
  rw [if_neg (show ¬ c = '\\' from hc1)]
  by_cases h18 : c = '='
  · subst h18; rfl
  rw [if_neg h18]
  simp [hc1]

theorem ERes.bind_eq_ok {α β : Type} {r : ERes α} {f : α → Context → List Event → ERes β}
    {b : β} {ctx' : Context} {log' : List Event}
    (h : ERes.bind r f = ERes.ok b ctx' log') :
    ∃ a ctx₁ log₁, r = ERes.ok a ctx₁ log₁ ∧ f a ctx₁ log₁ = ERes.ok b ctx' log' := by
  cases r with
  | ok a c l => exact ⟨a, c, l, rfl, h⟩
  | err m c l => exact ERes.noConfusion h
  | stuck => exact ERes.noConfusion h

theorem set_var_preserves {ctx : Context} {k : String} {v : Variable} {ctx' : Context}
    (h : ctx.set_var k v = some ctx') :
    ctx'.scopes.length = ctx.scopes.length ∧ ctx'.continue_num = ctx.continue_num ∧
      ctx'.break_num = ctx.break_num := by
  unfold Context.set_var at h
  cases hl : ctx.scopes.getLast? with
  | none => rw [hl] at h; exact Option.noConfusion h
  | some last =>
    rw [hl] at h
    have hne : ctx.scopes ≠ [] := by
      intro he; rw [he] at hl; exact Option.noConfusion hl
    have hpos : 0 < ctx.scopes.length := List.length_pos.mpr hne
    cases h
    refine ⟨?_, rfl, rfl⟩
    simp [List.length_dropLast]
    omega

theorem execNative_preserves {nm : String} {ctx : Context} {args : List Variable}
    {v : Variable} {ctx' : Context}
    (h : execNative nm ctx args = some (Except.ok (v, ctx'))) :
    ctx'.scopes.length = ctx.scopes.length ∧ ctx'.continue_num = ctx.continue_num := by
  unfold execNative at h
  repeat' split at h
  all_goals try exact Option.noConfusion h
  all_goals try exact Except.noConfusion (Option.some.inj h)
  all_goals try (cases h; exact ⟨rfl, rfl⟩)
  rename_i heq
  cases h
  obtain ⟨h1, h2, _⟩ := set_var_preserves heq
  exact ⟨h1, h2⟩

theorem add_scope_length (ctx : Context) :
    ctx.add_scope.scopes.length = ctx.scopes.length + 1 := by
  simp [Context.add_scope]

theorem pop_scope_length (ctx : Context) :
    ctx.pop_scope.scopes.length = ctx.scopes.length - 1 := by
  simp [Context.pop_scope]

set_option maxHeartbeats 8000000 in
theorem exec_preserves : ∀ fuel : Nat,
    (∀ env v ctx log a ctx' log', valueGet env fuel v ctx log = ERes.ok a ctx' log' →
        ctx'.scopes.length = ctx.scopes.length ∧ ctx'.continue_num = ctx.continue_num) ∧
    (∀ env es out ctx log a ctx' log',
        subCapture env fuel es out ctx log = ERes.ok a ctx' log' →
        ctx'.scopes.length = ctx.scopes.length - 1 ∧ ctx'.continue_num = ctx.continue_num) ∧
    (∀ env vec acc ctx log a ctx' log',
        valuesToArray env fuel vec acc ctx log = ERes.ok a ctx' log' →
        ctx'.scopes.length = ctx.scopes.length ∧ ctx'.continue_num = ctx.continue_num) ∧
    (∀ env args acc ctx log a ctx' log',
        getVariables env fuel args acc ctx log = ERes.ok a ctx' log' →
        ctx'.scopes.length = ctx.scopes.length ∧ ctx'.continue_num = ctx.continue_num) ∧
    (∀ env cv ctx log a ctx' log',
        commandValueGet env fuel cv ctx log = ERes.ok a ctx' log' →
        ctx'.scopes.length = ctx.scopes.length ∧ ctx'.continue_num = ctx.continue_num) ∧
    (∀ env e ctx log a ctx' log', execExpr env fuel e ctx log = ERes.ok a ctx' log' →
        ctx'.scopes.length = ctx.scopes.length ∧ ctx'.continue_num = ctx.continue_num) ∧
    (∀ env num ctx log a ctx' log', breakExec env fuel num ctx log = ERes.ok a ctx' log' →
        ctx'.scopes.length = ctx.scopes.length ∧ ctx'.continue_num = ctx.continue_num) ∧
    (∀ env c cs ctx log a ctx' log', whileExec env fuel c cs ctx log = ERes.ok a ctx' log' →
        ctx'.scopes.length = ctx.scopes.length ∧ ctx'.continue_num = ctx.continue_num) ∧
    (∀ env c cs ctx log a ctx' log', whileLoop env fuel c cs ctx log = ERes.ok a ctx' log' →
        ctx'.scopes.length = ctx.scopes.length ∧ ctx'.continue_num = ctx.continue_num) ∧
    (∀ env c cs es ctx log a ctx' log',
        ifExec env fuel c cs es ctx log = ERes.ok a ctx' log' →
        ctx'.scopes.length = ctx.scopes.length ∧ ctx'.continue_num = ctx.continue_num) ∧
    (∀ env k v ctx log a ctx' log', letExec env fuel k v ctx log = ERes.ok a ctx' log' →
        ctx'.scopes.length = ctx.scopes.length ∧ ctx'.continue_num = ctx.continue_num) ∧
    (∀ env vs ctx log a ctx' log', commandExec env fuel vs ctx log = ERes.ok a ctx' log' →
        ctx'.scopes.length = ctx.scopes.length ∧ ctx'.continue_num = ctx.continue_num) ∧
    (∀ env vs cmd ctx log a ctx' log',
        commandArgs env fuel vs cmd ctx log = ERes.ok a ctx' log' →
        ctx'.scopes.length = ctx.scopes.length ∧ ctx'.continue_num = ctx.continue_num) ∧
    (∀ env s t ctx log a ctx' log',
        redirectTargetExec env fuel s t ctx log = ERes.ok a ctx' log' →
        ctx'.scopes.length = ctx.scopes.length ∧ ctx'.continue_num = ctx.continue_num) ∧
    (∀ env s t ctx log a ctx' log',
        fileTargetExec env fuel s t ctx log = ERes.ok a ctx' log' →
        ctx'.scopes.length = ctx.scopes.length ∧ ctx'.continue_num = ctx.continue_num) ∧
    (∀ env s t ctx log a ctx' log',
        fileSourceExec env fuel s t ctx log = ERes.ok a ctx' log' →
        ctx'.scopes.length = ctx.scopes.length ∧ ctx'.continue_num = ctx.continue_num) ∧
    (∀ env es ctx log a ctx' log', execList env fuel es ctx log = ERes.ok a ctx' log' →
        ctx'.scopes.length = ctx.scopes.length ∧ ctx'.continue_num = ctx.continue_num) ∧
    (∀ env es last ctx log a ctx' log',
        execListLoop env fuel es last ctx log = ERes.ok a ctx' log' →
        ctx'.scopes.length = ctx.scopes.length ∧ ctx'.continue_num = ctx.continue_num) ∧
    (∀ env x y ctx log a ctx' log', orExec env fuel x y ctx log = ERes.ok a ctx' log' →
        ctx'.scopes.length = ctx.scopes.length ∧ ctx'.continue_num = ctx.continue_num) ∧
    (∀ env x y ctx log a ctx' log', andExec env fuel x y ctx log = ERes.ok a ctx' log' →
        ctx'.scopes.length = ctx.scopes.length ∧ ctx'.continue_num = ctx.continue_num) := by
  intro fuel
  induction fuel with
  | zero =>
    refine ⟨?_, ?_, ?_, ?_, ?_, ?_, ?_, ?_, ?_, ?_, ?_, ?_, ?_, ?_, ?_, ?_, ?_, ?_, ?_, ?_⟩ <;>
      (intros; exact ERes.noConfusion (by assumption))
  | succ n ih =>
    obtain ⟨ihVG, ihSC, ihVA, ihGV, ihCVG, ihEE, ihBR, ihWE, ihWL, ihIF, ihLET, ihCE,
      ihCA, ihRT, ihFT, ihFS, ihEL, ihELL, ihOR, ihAND⟩ := ih
    refine ⟨?_, ?_, ?_, ?_, ?_, ?_, ?_, ?_, ?_, ?_, ?_, ?_, ?_, ?_, ?_, ?_, ?_, ?_, ?_, ?_⟩
    -- valueGet
    · intro env v ctx log a ctx' log' h
      cases v with
      | Literal s => cases h; exact ⟨rfl, rfl⟩
      | Variable name => cases h; exact ⟨rfl, rfl⟩
      | ArrayVariable name => cases h; exact ⟨rfl, rfl⟩
      | Expressions es =>
        simp only [valueGet] at h
        obtain ⟨h1, h2⟩ := ihSC _ _ _ _ _ _ _ _ h
        rw [add_scope_length] at h1
        exact ⟨by omega, by rw [h2]; rfl⟩
      | Values vec =>
        simp only [valueGet] at h
        exact ihVA _ _ _ _ _ _ _ _ h
      | ArrayDefinition vec =>
        simp only [valueGet] at h
        exact ihVA _ _ _ _ _ _ _ _ h
      | ValueFunction call =>
        cases call with
        | mk name cargs =>
          simp only [valueGet] at h
          obtain ⟨args, ctx₁, log₁, h1, h2⟩ := ERes.bind_eq_ok h
          obtain ⟨e1, e2⟩ := ihGV _ _ _ _ _ _ _ _ h1
          split at h2
          · exact ERes.noConfusion h2
          · exact ERes.noConfusion h2
          · split at h2
            · exact ERes.noConfusion h2
            · rename_i nm res ctx₂ heq
              cases h2
              obtain ⟨f1, f2⟩ := execNative_preserves heq
              exact ⟨by omega, by rw [f2, e2]⟩
            · exact ERes.noConfusion h2
    -- subCapture
    · intro env es out ctx log a ctx' log' h
      cases es with
      | nil =>
        simp only [subCapture] at h
        cases h
        exact ⟨pop_scope_length ctx, rfl⟩
      | cons e rest =>
        simp only [subCapture] at h
        obtain ⟨r, ctx₁, log₁, h1, h2⟩ := ERes.bind_eq_ok h
        obtain ⟨e1, e2⟩ := ihEE _ _ _ _ _ _ _ h1
        split at h2
        · obtain ⟨f1, f2⟩ := ihSC _ _ _ _ _ _ _ _ h2
          exact ⟨by omega, by rw [f2, e2]⟩
        · split at h2
          · obtain ⟨f1, f2⟩ := ihSC _ _ _ _ _ _ _ _ h2
            exact ⟨by omega, by rw [f2, e2]⟩
          · exact ERes.noConfusion h2
    -- valuesToArray
    · intro env vec acc ctx log a ctx' log' h
      cases vec with
      | nil => cases h; exact ⟨rfl, rfl⟩
      | cons v rest =>
        simp only [valuesToArray] at h
        obtain ⟨r, ctx₁, log₁, h1, h2⟩ := ERes.bind_eq_ok h
        obtain ⟨e1, e2⟩ := ihVG _ _ _ _ _ _ _ h1
        obtain ⟨f1, f2⟩ := ihVA _ _ _ _ _ _ _ _ h2
        exact ⟨by omega, by rw [f2, e2]⟩
    -- getVariables
    · intro env args acc ctx log a ctx' log' h
      cases args with
      | nil => cases h; exact ⟨rfl, rfl⟩
      | cons v rest =>
        simp only [getVariables] at h
        obtain ⟨r, ctx₁, log₁, h1, h2⟩ := ERes.bind_eq_ok h
        obtain ⟨e1, e2⟩ := ihVG _ _ _ _ _ _ _ h1
        obtain ⟨f1, f2⟩ := ihGV _ _ _ _ _ _ _ _ h2
        exact ⟨by omega, by rw [f2, e2]⟩
    -- commandValueGet
    · intro env cv ctx log a ctx' log' h
      cases cv with
      | Value val =>
        simp only [commandValueGet] at h
        exact ihVG _ _ _ _ _ _ _ h
      | Var s v => exact ERes.noConfusion h
    -- execExpr
    · intro env e ctx log a ctx' log' h
      cases e <;> simp only [execExpr] at h
      case LetExpression => exact ihLET _ _ _ _ _ _ _ _ h
      case Command => exact ihCE _ _ _ _ _ _ _ h
      case JobCommand => exact ERes.noConfusion h
      case Function => exact ERes.noConfusion h
      case IfExpression => exact ihIF _ _ _ _ _ _ _ _ _ h
      case WhileExpression => exact ihWE _ _ _ _ _ _ _ _ h
      case ForExpression => exact ERes.noConfusion h
      case RedirectTargetExpression => exact ihRT _ _ _ _ _ _ _ _ h
      case FileTargetExpression => exact ihFT _ _ _ _ _ _ _ _ h
      case FileSourceExpression => exact ihFS _ _ _ _ _ _ _ _ h
      case Expressions => exact ihEL _ _ _ _ _ _ _ h
      case OrExpression => exact ihOR _ _ _ _ _ _ _ _ h
      case AndExpression => exact ihAND _ _ _ _ _ _ _ _ h
      case BreakExpression => exact ihBR _ _ _ _ _ _ _ h
    -- breakExec
    · intro env num ctx log a ctx' log' h
      simp only [breakExec] at h
      split at h
      · cases h; exact ⟨rfl, rfl⟩
      · obtain ⟨r, ctx₁, log₁, h1, h2⟩ := ERes.bind_eq_ok h
        obtain ⟨e1, e2⟩ := ihVG _ _ _ _ _ _ _ h1
        split at h2
        · exact ERes.noConfusion h2
        · cases h2; exact ⟨e1, e2⟩
    -- whileExec
    · intro env c cs ctx log a ctx' log' h
      simp only [whileExec] at h
      split at h
      · cases h; exact ⟨rfl, rfl⟩
      · obtain ⟨r, ctx₁, log₁, h1, h2⟩ := ERes.bind_eq_ok h
        obtain ⟨e1, e2⟩ := ihEE _ _ _ _ _ _ _ h1
        split at h2
        · exact ERes.noConfusion h2
        · split at h2
          · rename_i res ctx₂ log₂ heq
            cases h2
            obtain ⟨f1, f2⟩ := ihWL _ _ _ _ _ _ _ _ heq
            rw [add_scope_length] at f1
            constructor
            · rw [pop_scope_length]; omega
            · show ctx₂.continue_num = ctx.continue_num
              rw [f2]; exact e2
          · exact ERes.noConfusion h2
          · exact ERes.noConfusion h2
    -- whileLoop
    · intro env c cs ctx log a ctx' log' h
      simp only [whileLoop] at h
      split at h
      · cases h; exact ⟨rfl, rfl⟩
      · split at h
        · cases h; exact ⟨rfl, rfl⟩
        · obtain ⟨res, ctx₁, log₃, h1, h2⟩ := ERes.bind_eq_ok h
          obtain ⟨e1, e2⟩ := ihEL _ _ _ _ _ _ _ h1
          split at h2
          · cases h2; exact ⟨e1, e2⟩
          · obtain ⟨f1, f2⟩ := ihWL _ _ _ _ _ _ _ _ h2
            exact ⟨by omega, by rw [f2, e2]⟩
    -- ifExec
    · intro env c cs es ctx log a ctx' log' h
      simp only [ifExec] at h
      split at h
      · cases h; exact ⟨rfl, rfl⟩
      · obtain ⟨r, ctx₁, log₁, h1, h2⟩ := ERes.bind_eq_ok h
        obtain ⟨e1, e2⟩ := ihEE _ _ _ _ _ _ _ h1
        split at h2
        · exact ERes.noConfusion h2
        · split at h2
          · rename_i res ctx₃ log₄ heqBranch
            cases h2
            have f : ctx₃.scopes.length = ctx₁.add_scope.scopes.length ∧
                ctx₃.continue_num = ctx₁.add_scope.continue_num := by
              split at heqBranch
              · exact ihEL _ _ _ _ _ _ _ heqBranch
              · split at heqBranch
                · exact ihEL _ _ _ _ _ _ _ heqBranch
                · exact ihEL _ _ _ _ _ _ _ heqBranch
            obtain ⟨f1, f2⟩ := f
            rw [add_scope_length] at f1
            constructor
            · rw [pop_scope_length]; omega
            · show ctx₃.continue_num = ctx.continue_num
              rw [f2]; exact e2
          · exact ERes.noConfusion h2
          · exact ERes.noConfusion h2
    -- letExec
    · intro env k v ctx log a ctx' log' h
      simp only [letExec] at h
      split at h
      · cases h; exact ⟨rfl, rfl⟩
      · obtain ⟨kv, ctx₁, log₁, h1, h2⟩ := ERes.bind_eq_ok h
        obtain ⟨e1, e2⟩ := ihVG _ _ _ _ _ _ _ h1
        obtain ⟨vv, ctx₂, log₂, h3, h4⟩ := ERes.bind_eq_ok h2
        obtain ⟨e3, e4⟩ := ihVG _ _ _ _ _ _ _ h3
        split at h4
        · exact ERes.noConfusion h4
        · rename_i ctx₃ heq
          cases h4
          obtain ⟨f1, f2, _⟩ := set_var_preserves heq
          exact ⟨by omega, by rw [f2, e4, e2]⟩
    -- commandExec
    · intro env vs ctx log a ctx' log' h
      simp only [commandExec] at h
      split at h
      · cases h; exact ⟨rfl, rfl⟩
      · split at h
        · exact ERes.noConfusion h
        · obtain ⟨v1, ctx₁, log₁, h1, h2⟩ := ERes.bind_eq_ok h
          obtain ⟨e1, e2⟩ := ihCVG _ _ _ _ _ _ _ h1
          obtain ⟨f1, f2⟩ := ihCA _ _ _ _ _ _ _ _ h2
          exact ⟨by omega, by rw [f2, e2]⟩
    -- commandArgs
    · intro env vs cmd ctx log a ctx' log' h
      cases vs with
      | nil => cases h; exact ⟨rfl, rfl⟩
      | cons cv rest =>
        simp only [commandArgs] at h
        obtain ⟨r, ctx₁, log₁, h1, h2⟩ := ERes.bind_eq_ok h
        obtain ⟨e1, e2⟩ := ihCVG _ _ _ _ _ _ _ h1
        obtain ⟨f1, f2⟩ := ihCA _ _ _ _ _ _ _ _ h2
        exact ⟨by omega, by rw [f2, e2]⟩
    -- redirectTargetExec
    · intro env s t ctx log a ctx' log' h
      simp only [redirectTargetExec] at h
      split at h
      · cases h; exact ⟨rfl, rfl⟩
      · obtain ⟨sOpt, ctx₁, log₁, h1, h2⟩ := ERes.bind_eq_ok h
        obtain ⟨e1, e2⟩ := ihEE _ _ _ _ _ _ _ h1
        split at h2
        · exact ERes.noConfusion h2
        · obtain ⟨tOpt, ctx₂, log₂, h3, h4⟩ := ERes.bind_eq_ok h2
          obtain ⟨e3, e4⟩ := ihEE _ _ _ _ _ _ _ h3
          split at h4
          · exact ERes.noConfusion h4
          · split at h4
            · cases h4; exact ⟨by omega, by rw [e4, e2]⟩
            · cases h4; exact ⟨by omega, by rw [e4, e2]⟩
    -- fileTargetExec
    · intro env s t ctx log a ctx' log' h
      simp only [fileTargetExec] at h
      split at h
      · cases h; exact ⟨rfl, rfl⟩
      · obtain ⟨tv, ctx₁, log₁, h1, h2⟩ := ERes.bind_eq_ok h
        obtain ⟨e1, e2⟩ := ihVG _ _ _ _ _ _ _ h1
        split at h2
        · exact ERes.noConfusion h2
        · obtain ⟨sOpt, ctx₂, log₂, h3, h4⟩ := ERes.bind_eq_ok h2
          obtain ⟨e3, e4⟩ := ihEE _ _ _ _ _ _ _ h3
          split at h4
          · exact ERes.noConfusion h4
          · split at h4
            · cases h4; exact ⟨by omega, by rw [e4, e2]⟩
            · cases h4; exact ⟨by omega, by rw [e4, e2]⟩
    -- fileSourceExec
    · intro env s t ctx log a ctx' log' h
      simp only [fileSourceExec] at h
      split at h
      · cases h; exact ⟨rfl, rfl⟩
      · obtain ⟨sv, ctx₁, log₁, h1, h2⟩ := ERes.bind_eq_ok h
        obtain ⟨e1, e2⟩ := ihVG _ _ _ _ _ _ _ h1
        obtain ⟨cmd, ctx₃, log₃, h3, h4⟩ := ERes.bind_eq_ok h2
        have e3 : ctx₃.scopes.length = ctx₁.scopes.length ∧
            ctx₃.continue_num = ctx₁.continue_num := by
          split at h3
          · obtain ⟨tOpt, ctx₂, log₂, h5, h6⟩ := ERes.bind_eq_ok h3
            obtain ⟨g1, g2⟩ := ihEE _ _ _ _ _ _ _ h5
            split at h6
            · exact ERes.noConfusion h6
            · cases h6; exact ⟨g1, g2⟩
          · cases h3; exact ⟨rfl, rfl⟩
        obtain ⟨e3a, e3b⟩ := e3
        split at h4
        · cases h4; exact ⟨by omega, by rw [e3b, e2]⟩
        · exact ERes.noConfusion h4
    -- execList
    · intro env es ctx log a ctx' log' h
      simp only [execList] at h
      split at h
      · cases h; exact ⟨rfl, rfl⟩
      · exact ihELL _ _ _ _ _ _ _ _ h
    -- execListLoop
    · intro env es last ctx log a ctx' log' h
      cases es with
      | nil => cases h; exact ⟨rfl, rfl⟩
      | cons e rest =>
        simp only [execListLoop] at h
        obtain ⟨r, ctx₁, log₁, h1, h2⟩ := ERes.bind_eq_ok h
        obtain ⟨e1, e2⟩ := ihEE _ _ _ _ _ _ _ h1
        split at h2
        · cases h2; exact ⟨e1, e2⟩
        · obtain ⟨f1, f2⟩ := ihELL _ _ _ _ _ _ _ _ h2
          exact ⟨by omega, by rw [f2, e2]⟩
    -- orExec
    · intro env x y ctx log a ctx' log' h
      simp only [orExec] at h
      split at h
      · cases h; exact ⟨rfl, rfl⟩
      · obtain ⟨fOpt, ctx₁, log₁, h1, h2⟩ := ERes.bind_eq_ok h
        obtain ⟨e1, e2⟩ := ihEE _ _ _ _ _ _ _ h1
        split at h2
        · exact ERes.noConfusion h2
        · split at h2
          · obtain ⟨f1, f2⟩ := ihEE _ _ _ _ _ _ _ h2
            exact ⟨by omega, by rw [f2, e2]⟩
          · split at h2
            · cases h2; exact ⟨e1, e2⟩
            · obtain ⟨f1, f2⟩ := ihEE _ _ _ _ _ _ _ h2
              exact ⟨by omega, by rw [f2, e2]⟩
    -- andExec
    · intro env x y ctx log a ctx' log' h
      simp only [andExec] at h
      split at h
      · cases h; exact ⟨rfl, rfl⟩
      · obtain ⟨fOpt, ctx₁, log₁, h1, h2⟩ := ERes.bind_eq_ok h
        obtain ⟨e1, e2⟩ := ihEE _ _ _ _ _ _ _ h1
        split at h2
        · exact ERes.noConfusion h2
        · split at h2
          · cases h2; exact ⟨e1, e2⟩
          · split at h2
            · cases h2; exact ⟨e1, e2⟩
            · obtain ⟨f1, f2⟩ := ihEE _ _ _ _ _ _ _ h2
              exact ⟨by omega, by rw [f2, e2]⟩


theorem exec_tree_ok : ∀ (fuel : Nat) (tree : List Expression) (env : Env) (ctx : Context)
    (log : List Event) (ctx' : Context) (log' : List Event),
    exec_tree env fuel tree ctx log = ERes.ok () ctx' log' →
    ctx'.scopes.length = ctx.scopes.length ∧ ctx'.continue_num = ctx.continue_num ∧
      (tree = [] → ctx' = ctx) ∧ (tree ≠ [] → ctx'.break_num = 0)
  | 0, _, _, _, _, _, _, h => ERes.noConfusion h
  | fuel + 1, [], env, ctx, log, ctx', log', h => by
    cases h
    exact ⟨rfl, rfl, fun _ => rfl, fun hne => absurd rfl hne⟩
  | fuel + 1, e :: rest, env, ctx, log, ctx', log', h => by
    simp only [exec_tree] at h
    obtain ⟨cmdOpt, ctx₁, log₁, h1, h2⟩ := ERes.bind_eq_ok h
    obtain ⟨e1, e2⟩ := (exec_preserves fuel).2.2.2.2.2.1 _ _ _ _ _ _ _ h1
    obtain ⟨u, ctx₃, log₄, h3, h4⟩ := ERes.bind_eq_ok h2
    have hctx3 : ctx₃.scopes.length = ctx₁.scopes.length ∧
        ctx₃.continue_num = ctx₁.continue_num ∧ ctx₃.break_num = ctx₁.break_num := by
      split at h3
      · cases h3; exact ⟨rfl, rfl, rfl⟩
      · split at h3
        · cases h3; exact ⟨rfl, rfl, rfl⟩
        · split at h3
          · exact ERes.noConfusion h3
          · rename_i ctx₂ heq
            cases h3
            exact set_var_preserves heq
    obtain ⟨g1, g2, g3⟩ := hctx3
    split at h4
    · exact ERes.noConfusion h4
    · rename_i hbn
      obtain ⟨f1, f2, f3, f4⟩ := exec_tree_ok fuel rest env ctx₃ log₄ ctx' log' h4
      refine ⟨by omega, by rw [f2, g2, e2], fun hc => List.noConfusion hc, fun _ => ?_⟩
      by_cases hr : rest = []
      · rw [f3 hr]; omega
      · exact f4 hr

theorem word_exec (env : Env) (fuel : Nat) (p : String) (ctx : Context) (log : List Event)
    (hb : ctx.break_num = 0) :
    execExpr env (fuel + 4) (word p) ctx log = ERes.ok (some (RCommand.new p)) ctx log := by
  show commandExec env (fuel + 3) [CommandValue.Value (Value.Literal p)] ctx log = _
  simp only [commandExec]
  rw [if_neg (by omega)]
  rfl

theorem andExec_runs_second (env : Env) (fuel : Nat) (p : String) (y : Expression)
    (ctx : Context) (log : List Event) (hb : ctx.break_num = 0)
    (hp : env.spawn p [] = SpawnOutcome.runs (some 0)) :
    andExec env (fuel + 5) (word p) y ctx log =
      execExpr env (fuel + 4) y ctx
        (log ++ [Event.spawned p [], Event.waited p (some 0)]) := by
  simp only [andExec]
  rw [if_neg (by omega)]
  rw [word_exec env fuel p ctx log hb]
  show (match env.spawn p [] with
    | SpawnOutcome.err => ERes.ok (some (RCommand.new p)) ctx (log ++ [Event.spawned p []])
    | SpawnOutcome.runs code =>
      if code ≠ some 0 then
        ERes.ok (some (RCommand.new p)) ctx
          (log ++ [Event.spawned p []] ++ [Event.waited p code])
      else execExpr env (fuel + 4) y ctx
        (log ++ [Event.spawned p []] ++ [Event.waited p code])) = _
  rw [hp]
  show execExpr env (fuel + 4) y ctx
      (log ++ [Event.spawned p []] ++ [Event.waited p (some 0)]) = _
  rw [List.append_assoc]
  rfl

theorem andExec_skips_second (env : Env) (fuel : Nat) (p : String) (y : Expression)
    (ctx : Context) (log : List Event) (c : Option Int) (hb : ctx.break_num = 0)
    (hp : env.spawn p [] = SpawnOutcome.runs c) (hc : c ≠ some 0) :
    andExec env (fuel + 5) (word p) y ctx log =
      ERes.ok (some (RCommand.new p)) ctx
        (log ++ [Event.spawned p [], Event.waited p c]) := by
  simp only [andExec]
  rw [if_neg (by omega)]
  rw [word_exec env fuel p ctx log hb]
  show (match env.spawn p [] with
    | SpawnOutcome.err => ERes.ok (some (RCommand.new p)) ctx (log ++ [Event.spawned p []])
    | SpawnOutcome.runs code =>
      if code ≠ some 0 then
        ERes.ok (some (RCommand.new p)) ctx
          (log ++ [Event.spawned p []] ++ [Event.waited p code])
      else execExpr env (fuel + 4) y ctx
        (log ++ [Event.spawned p []] ++ [Event.waited p code])) = _
  rw [hp]
  show (if c ≠ some 0 then
      ERes.ok (some (RCommand.new p)) ctx (log ++ [Event.spawned p []] ++ [Event.waited p c])
    else execExpr env (fuel + 4) y ctx
      (log ++ [Event.spawned p []] ++ [Event.waited p c])) = _
  rw [if_pos hc, List.append_assoc]
  rfl

theorem orExec_skips_second (env : Env) (fuel : Nat) (p : String) (y : Expression)
    (ctx : Context) (log : List Event) (hb : ctx.break_num = 0)
    (hp : env.spawn p [] = SpawnOutcome.runs (some 0)) :
    orExec env (fuel + 5) (word p) y ctx log =
      ERes.ok (some (RCommand.new p)) ctx
        (log ++ [Event.spawned p [], Event.waited p (some 0)]) := by
  simp only [orExec]
  rw [if_neg (by omega)]
  rw [word_exec env fuel p ctx log hb]
  show (match env.spawn p [] with
    | SpawnOutcome.err => execExpr env (fuel + 4) y ctx (log ++ [Event.spawned p []])
    | SpawnOutcome.runs code =>
      if code = some 0 then
        ERes.ok (some (RCommand.new p)) ctx
          (log ++ [Event.spawned p []] ++ [Event.waited p code])
      else execExpr env (fuel + 4) y ctx
        (log ++ [Event.spawned p []] ++ [Event.waited p code])) = _
  rw [hp]
  show ERes.ok (some (RCommand.new p)) ctx
      (log ++ [Event.spawned p []] ++ [Event.waited p (some 0)]) = _
  rw [List.append_assoc]
  rfl

theorem orExec_runs_second (env : Env) (fuel : Nat) (p : String) (y : Expression)
    (ctx : Context) (log : List Event) (c : Option Int) (hb : ctx.break_num = 0)
    (hp : env.spawn p [] = SpawnOutcome.runs c) (hc : c ≠ some 0) :
    orExec env (fuel + 5) (word p) y ctx log =
      execExpr env (fuel + 4) y ctx (log ++ [Event.spawned p [], Event.waited p c]) := by
  simp only [orExec]
  rw [if_neg (by omega)]
  rw [word_exec env fuel p ctx log hb]
  show (match env.spawn p [] with
    | SpawnOutcome.err => execExpr env (fuel + 4) y ctx (log ++ [Event.spawned p []])
    | SpawnOutcome.runs code =>
      if code = some 0 then
        ERes.ok (some (RCommand.new p)) ctx
          (log ++ [Event.spawned p []] ++ [Event.waited p code])
      else execExpr env (fuel + 4) y ctx
        (log ++ [Event.spawned p []] ++ [Event.waited p code])) = _
  rw [hp]
  show (if c = some 0 then
      ERes.ok (some (RCommand.new p)) ctx (log ++ [Event.spawned p []] ++ [Event.waited p c])
    else execExpr env (fuel + 4) y ctx
      (log ++ [Event.spawned p []] ++ [Event.waited p c])) = _
  rw [if_neg hc, List.append_assoc]
  rfl


/-! ## The claims -/

/-- C1 (counterexample): when the right operand is skipped, `&&` / `||` do
NOT produce the empty result — `AndExpression::exec` on `false && X` yields
`Some` of the `false` command itself (first conjunct), which is not `None`
(second conjunct), and the caller (`exec_tree`) therefore spawns and waits
`false` a second time, as the event log of the third conjunct shows; the
fourth conjunct is the mirror-image `||` case (left succeeded, right
skipped, left command returned again). -/
theorem C1_and_or_counterexample :
    andExec envDemo 100 (word "false") (word "X") Context.new [] =
      ERes.ok (some (RCommand.new "false")) Context.new
        [Event.spawned "false" [], Event.waited "false" (some 1)] ∧
    some (RCommand.new "false") ≠ (none : Option RCommand) ∧
    exec_tree envDemo 100 [Expression.AndExpression (word "false") (word "X")]
        Context.new [] =
      ERes.ok () (qmarkCtx 1)
        [Event.spawned "false" [], Event.waited "false" (some 1),
         Event.spawned "false" [], Event.waited "false" (some 1)] ∧
    orExec envDemo 100 (word "t") (word "X") Context.new [] =
      ERes.ok (some (RCommand.new "t")) Context.new
        [Event.spawned "t" [], Event.waited "t" (some 0)] :=
  ⟨rfl, fun hcon => Option.noConfusion hcon, rfl, rfl⟩

/-- C1 (amended): for `&&` and `||` the left command is spawned and waited to
completion and its exit code read; `&&` executes the right operand exactly
when the code is 0 and `||` exactly when it is non-zero; whenever the right
operand is not executed the combinator returns the LEFT command again
(`Some(first)`, not the empty result), so the caller spawns and waits the
left command a second time. -/
theorem C1_and_or_amended :
    (∀ (env : Env) (fuel : Nat) (p : String) (y : Expression) (ctx : Context)
        (log : List Event), ctx.break_num = 0 →
        env.spawn p [] = SpawnOutcome.runs (some 0) →
        andExec env (fuel + 5) (word p) y ctx log =
          execExpr env (fuel + 4) y ctx
            (log ++ [Event.spawned p [], Event.waited p (some 0)])) ∧
    (∀ (env : Env) (fuel : Nat) (p : String) (y : Expression) (ctx : Context)
        (log : List Event) (c : Option Int), ctx.break_num = 0 →
        env.spawn p [] = SpawnOutcome.runs c → c ≠ some 0 →
        andExec env (fuel + 5) (word p) y ctx log =
          ERes.ok (some (RCommand.new p)) ctx
            (log ++ [Event.spawned p [], Event.waited p c])) ∧
    (∀ (env : Env) (fuel : Nat) (p : String) (y : Expression) (ctx : Context)
        (log : List Event), ctx.break_num = 0 →
        env.spawn p [] = SpawnOutcome.runs (some 0) →
        orExec env (fuel + 5) (word p) y ctx log =
          ERes.ok (some (RCommand.new p)) ctx
            (log ++ [Event.spawned p [], Event.waited p (some 0)])) ∧
    (∀ (env : Env) (fuel : Nat) (p : String) (y : Expression) (ctx : Context)
        (log : List Event) (c : Option Int), ctx.break_num = 0 →
        env.spawn p [] = SpawnOutcome.runs c → c ≠ some 0 →
        orExec env (fuel + 5) (word p) y ctx log =
          execExpr env (fuel + 4) y ctx
            (log ++ [Event.spawned p [], Event.waited p c])) :=
  ⟨fun env fuel p y ctx log hb hp => andExec_runs_second env fuel p y ctx log hb hp,
   fun env fuel p y ctx log c hb hp hc => andExec_skips_second env fuel p y ctx log c hb hp hc,
   fun env fuel p y ctx log hb hp => orExec_skips_second env fuel p y ctx log hb hp,
   fun env fuel p y ctx log c hb hp hc => orExec_runs_second env fuel p y ctx log c hb hp hc⟩

/-- C1 (witness): the `&&` combinator on an exit-0 left operand, at concrete
inputs. -/
theorem C1_and_or_amended_witness :
    andExec envDemo (0 + 5) (word "t") (word "X") Context.new [] =
      execExpr envDemo (0 + 4) (word "X") Context.new
        ([] ++ [Event.spawned "t" [], Event.waited "t" (some 0)]) :=
  C1_and_or_amended.1 envDemo 0 "t" (word "X") Context.new [] rfl rfl

/-- C2: `break [n]` semantics.  (1) With no pending break, an empty operand
(empty literal or the empty `Values` the parser produces for a bare `break`)
and a literal `0` all set `break_num` to 1; (2) a parseable operand sets
`break_num` to the parsed value, with 0 mapped to 1; (3) while `break_num`
is positive, every implemented expression short-circuits to the empty result
leaving scopes, exports and `continue_num` untouched (`break_num` unchanged
or decremented by exactly one); (4) a `while` loop reached with positive
`break_num` decrements it and skips its whole body; and (5) in a concrete
nest of two `while` loops, `break 2` terminates exactly the two loops —
their conditions `t1` and `t2` each spawn exactly once, the following
statement `after` still runs, and `break_num` ends at 0. -/
theorem C2_break_semantics :
    (∀ (env : Env) (fuel : Nat) (ctx : Context) (log : List Event), ctx.break_num = 0 →
        breakExec env (fuel + 3) (Value.Literal "") ctx log =
            ERes.ok none { ctx with break_num := 1 } log ∧
        breakExec env (fuel + 3) (Value.Values []) ctx log =
            ERes.ok none { ctx with break_num := 1 } log ∧
        breakExec env (fuel + 3) (Value.Literal "0") ctx log =
            ERes.ok none { ctx with break_num := 1 } log) ∧
    (∀ (env : Env) (fuel : Nat) (ctx : Context) (log : List Event) (s : String) (n : Nat),
        ctx.break_num = 0 → parseU16 s = some n →
        breakExec env (fuel + 3) (Value.Literal s) ctx log =
          ERes.ok none { ctx with break_num := if n = 0 then 1 else n } log) ∧
    (∀ (env : Env) (fuel : Nat) (e : Expression) (ctx : Context) (log : List Event),
        ctx.break_num > 0 → isImplementedExec e = true →
        ∃ ctx', execExpr env (fuel + 2) e ctx log = ERes.ok none ctx' log ∧
          ctx'.scopes = ctx.scopes ∧ ctx'.exports = ctx.exports ∧
          ctx'.continue_num = ctx.continue_num ∧
          (ctx'.break_num = ctx.break_num ∨ ctx'.break_num = ctx.break_num - 1)) ∧
    (∀ (env : Env) (fuel : Nat) (c : Expression) (cs : List Expression) (ctx : Context)
        (log : List Event), ctx.break_num > 0 →
        whileExec env (fuel + 1) c cs ctx log =
          ERes.ok none { ctx with break_num := ctx.break_num - 1 } log) ∧
    exec_tree envDemo 100
      [Expression.WhileExpression (word "t1")
        [Expression.WhileExpression (word "t2")
          [Expression.BreakExpression (Value.Literal "2")]],
       word "after"] Context.new [] =
      ERes.ok () (qmarkCtx 0)
        [Event.spawned "t1" [], Event.waited "t1" (some 0),
         Event.spawned "t2" [], Event.waited "t2" (some 0),
         Event.spawned "after" [], Event.waited "after" (some 0)] := by
  refine ⟨?_, ?_, ?_, ?_, rfl⟩
  · intro env fuel ctx log h0
    refine ⟨?_, ?_, ?_⟩ <;> (simp only [breakExec]; rw [if_neg (by omega)]; rfl)
  · intro env fuel ctx log s n h0 hparse
    have hs : s ≠ "" := by
      intro he; subst he; exact Option.noConfusion hparse
    simp only [breakExec]
    rw [if_neg (by omega)]
    show (match (if s ≠ "" then parseU16 s else some 1) with
      | none => ERes.err "invalid digit found in string" ctx log
      | some m => ERes.ok none { ctx with break_num := if m = 0 then 1 else m } log) = _
    rw [if_pos hs, hparse]
  · intro env fuel e ctx log hb himpl
    cases e
    case JobCommand a => simp [isImplementedExec] at himpl
    case Function f => simp [isImplementedExec] at himpl
    case ForExpression a b c d e2 => simp [isImplementedExec] at himpl
    case BreakExpression num =>
      refine ⟨{ ctx with break_num := ctx.break_num - 1 }, ?_, rfl, rfl, rfl, Or.inr rfl⟩
      show breakExec env (fuel + 1) num ctx log = _
      simp only [breakExec]
      rw [if_pos hb]
    case WhileExpression c cs =>
      refine ⟨{ ctx with break_num := ctx.break_num - 1 }, ?_, rfl, rfl, rfl, Or.inr rfl⟩
      show whileExec env (fuel + 1) c cs ctx log = _
      simp only [whileExec]
      rw [if_pos hb]
    case LetExpression k ty v =>
      refine ⟨ctx, ?_, rfl, rfl, rfl, Or.inl rfl⟩
      show letExec env (fuel + 1) k v ctx log = _
      simp only [letExec]
      rw [if_pos hb]
    case Command values =>
      refine ⟨ctx, ?_, rfl, rfl, rfl, Or.inl rfl⟩
      show commandExec env (fuel + 1) values ctx log = _
      simp only [commandExec]
      rw [if_pos hb]
    case IfExpression c cs es =>
      refine ⟨ctx, ?_, rfl, rfl, rfl, Or.inl rfl⟩
      show ifExec env (fuel + 1) c cs es ctx log = _
      simp only [ifExec]
      rw [if_pos hb]
    case RedirectTargetExpression s t =>
      refine ⟨ctx, ?_, rfl, rfl, rfl, Or.inl rfl⟩
      show redirectTargetExec env (fuel + 1) s t ctx log = _
      simp only [redirectTargetExec]
      rw [if_pos hb]
    case FileTargetExpression s t =>
      refine ⟨ctx, ?_, rfl, rfl, rfl, Or.inl rfl⟩
      show fileTargetExec env (fuel + 1) s t ctx log = _
      simp only [fileTargetExec]
      rw [if_pos hb]
    case FileSourceExpression s t =>
      refine ⟨ctx, ?_, rfl, rfl, rfl, Or.inl rfl⟩
      show fileSourceExec env (fuel + 1) s t ctx log = _
      simp only [fileSourceExec]
      rw [if_pos hb]
    case Expressions es =>
      refine ⟨ctx, ?_, rfl, rfl, rfl, Or.inl rfl⟩
      show execList env (fuel + 1) es ctx log = _
      simp only [execList]
      rw [if_pos hb]
    case OrExpression x y =>
      refine ⟨ctx, ?_, rfl, rfl, rfl, Or.inl rfl⟩
      show orExec env (fuel + 1) x y ctx log = _
      simp only [orExec]
      rw [if_pos hb]
    case AndExpression x y =>
      refine ⟨ctx, ?_, rfl, rfl, rfl, Or.inl rfl⟩
      show andExec env (fuel + 1) x y ctx log = _
      simp only [andExec]
      rw [if_pos hb]
  · intro env fuel c cs ctx log hb
    simp only [whileExec]
    rw [if_pos hb]

/-- C2 (witness): a bare `break` (empty operand) from a fresh context sets
`break_num` to 1. -/
theorem C2_break_semantics_witness :
    breakExec envDemo 3 (Value.Literal "") Context.new [] =
      ERes.ok none { Context.new with break_num := 1 } [] :=
  (C2_break_semantics.1 envDemo 0 Context.new [] rfl).1

/-- C3 (counterexample): a body error does NOT pop the scope pushed around an
`if` body — `break x` (unparseable operand) inside the `if` propagates the
error through `?` before `IfExpression::exec` reaches `pop_scope`, leaving
TWO scopes on the stack. -/
theorem C3_scope_counterexample :
    ∃ msg ctx log, exec_tree envDemo 100
        [Expression.IfExpression (word "t1")
          [Expression.BreakExpression (Value.Literal "x")] []]
        Context.new [] = ERes.err msg ctx log ∧ ctx.scopes.length = 2 :=
  ⟨_, _, _, rfl, rfl⟩

/-- C3 (amended): after a SUCCESSFUL `exec_tree` run from a fresh context the
scope stack has length exactly 1 and `break_num` and `continue_num` are 0
(each scope pushed around an `if` / `while` body or a command substitution is
popped again on this path); on an error the pushed scope is not popped (see
the counterexample). -/
theorem C3_scope_invariant (env : Env) (fuel : Nat) (tree : List Expression)
    (log : List Event) (ctx' : Context) (log' : List Event)
    (h : exec_tree env fuel tree Context.new log = ERes.ok () ctx' log') :
    ctx'.scopes.length = 1 ∧ ctx'.break_num = 0 ∧ ctx'.continue_num = 0 := by
  obtain ⟨l1, l2, l3, l4⟩ := exec_tree_ok fuel tree env Context.new log ctx' log' h
  refine ⟨by rw [l1]; rfl, ?_, by rw [l2]; rfl⟩
  by_cases ht : tree = []
  · rw [l3 ht]; rfl
  · exact l4 ht

/-- C3 (witness): a successful one-command run lands in the invariant. -/
theorem C3_scope_invariant_witness :
    (qmarkCtx 0).scopes.length = 1 ∧ (qmarkCtx 0).break_num = 0 ∧
      (qmarkCtx 0).continue_num = 0 :=
  C3_scope_invariant envDemo 100 [word "t1"] [] (qmarkCtx 0)
    [Event.spawned "t1" [], Event.waited "t1" (some 0)] rfl

/-- C4: the tree builder parses the token sequence of `A | B | C` (one line,
with its terminating separator) into the right-leaning
`RedirectTargetExpression(A, RedirectTargetExpression(B, C))`, for arbitrary
command words; the second conjunct pins the lexed token sequence of the
source line, and the last two conjuncts are the analogous right-leaning
`AndExpression` / `OrExpression` results for `&&` / `||`. -/
theorem C4_pipe_right_assoc :
    (∀ a b c : String,
        build_tree [Tokens.Literal a, Tokens.Space, Tokens.RedirectInto, Tokens.Space,
          Tokens.Literal b, Tokens.Space, Tokens.RedirectInto, Tokens.Space,
          Tokens.Literal c, Tokens.CommandEnd '\n'] 100 =
        PRes.ok [Expression.RedirectTargetExpression (word a)
          (Expression.RedirectTargetExpression (word b) (word c))] 9) ∧
    tokenize "A | B | C\n" = some [Tokens.Literal "A", Tokens.Space, Tokens.RedirectInto,
      Tokens.Space, Tokens.Literal "B", Tokens.Space, Tokens.RedirectInto, Tokens.Space,
      Tokens.Literal "C", Tokens.CommandEnd '\n'] ∧
    (∀ a b c : String,
        build_tree [Tokens.Literal a, Tokens.Space, Tokens.And, Tokens.Space,
          Tokens.Literal b, Tokens.Space, Tokens.And, Tokens.Space,
          Tokens.Literal c, Tokens.CommandEnd '\n'] 100 =
        PRes.ok [Expression.AndExpression (word a)
          (Expression.AndExpression (word b) (word c))] 9) ∧
    (∀ a b c : String,
        build_tree [Tokens.Literal a, Tokens.Space, Tokens.Or, Tokens.Space,
          Tokens.Literal b, Tokens.Space, Tokens.Or, Tokens.Space,
          Tokens.Literal c, Tokens.CommandEnd '\n'] 100 =
        PRes.ok [Expression.OrExpression (word a)
          (Expression.OrExpression (word b) (word c))] 9) :=
  ⟨fun _ _ _ => rfl, rfl, fun _ _ _ => rfl, fun _ _ _ => rfl⟩

/-- C5: stringification of a runtime `Variable` — integers in decimal, floats
via their (abstracted) decimal rendering, `Bool` as `true`/`false`, `HMap` as
the fixed `[Object object]`, a one-element `Array` as its single element's
string, and every other `Array` as the elements' strings joined by single
spaces. -/
theorem C5_display :
    (∀ n : Int, (Variable.I32 n).display = toString n) ∧
    (∀ n : Int, (Variable.I64 n).display = toString n) ∧
    (∀ n : Int, (Variable.I128 n).display = toString n) ∧
    (∀ n : Nat, (Variable.U32 n).display = toString n) ∧
    (∀ n : Nat, (Variable.U64 n).display = toString n) ∧
    (∀ n : Nat, (Variable.U128 n).display = toString n) ∧
    (∀ f : RustFloat, (Variable.F32 f).display = f.decimal) ∧
    (∀ f : RustFloat, (Variable.F64 f).display = f.decimal) ∧
    ((Variable.Bool true).display = "true" ∧ (Variable.Bool false).display = "false") ∧
    (∀ m, (Variable.HMap m).display = "[Object object]") ∧
    (∀ v : Variable, (Variable.Array [v]).display = v.display) ∧
    (∀ vs : List Variable, vs.length ≠ 1 →
        (Variable.Array vs).display =
          String.intercalate " " (vs.map Variable.display)) := by
  refine ⟨fun n => rfl, fun n => rfl, fun n => rfl, fun n => rfl, fun n => rfl,
    fun n => rfl, fun f => rfl, fun f => rfl, ⟨rfl, rfl⟩, fun m => rfl, fun v => rfl, ?_⟩
  intro vs h
  cases vs with
  | nil => rfl
  | cons v rest =>
    cases rest with
    | nil => exact absurd rfl h
    | cons w rest' => exact displayJoin_eq_intercalate (v :: w :: rest')

/-- C5 (witness): a two-element array joins with a single space. -/
theorem C5_display_witness :
    (Variable.Array [Variable.I32 1, Variable.String "a"]).display =
      String.intercalate " "
        ([Variable.I32 1, Variable.String "a"].map Variable.display) :=
  C5_display.2.2.2.2.2.2.2.2.2.2.2 [Variable.I32 1, Variable.String "a"] (by decide)

/-- C6: `Variable::index` succeeds exactly in the claimed cases — an `HMap`
with a `String` key that is present, or an `Array` with an index that is a
numeric variant (via its `as usize` cast) or a `String` parseable as an
unsigned integer, in bounds; every other combination is an error. -/
theorem C6_index_characterisation (v idx : Variable) :
    (∃ r, v.index idx = Except.ok r) ↔
      ((∃ m key val, v = Variable.HMap m ∧ idx = Variable.String key ∧
          hmapGet m key = some val) ∨
       (∃ arr n, v = Variable.Array arr ∧ numericIndexOf idx = some n ∧
          n < arr.length)) := by
  cases v <;> cases idx <;>
    simp only [Variable.index, numericIndexOf, arrGet_ok_iff, reduceCtorEq,
      exists_false, false_iff, false_or, or_false, iff_false, not_exists,
      Variable.HMap.injEq, Variable.Array.injEq, Variable.String.injEq,
      Option.some.injEq, exists_eq_left, exists_and_left, exists_eq_left',
      false_and, and_false, exists_const, true_and, exists_eq']
  case HMap.String m key =>
    cases h : hmapGet m key with
    | none => simp [h]
    | some val => simp [h]
  case Array.String arr s =>
    cases h : parseUnsigned (2 ^ 64) s with
    | none => simp [h]
    | some n => simp [h, ← arrGet_ok_iff]

/-- C7 (counterexample): inside single quotes the backslash IS interpreted —
the `'\\'` arm of `tokenize` has no quote-mode guard, so `'a\c'` lexes to the
literal `ac`, not the verbatim `a\c`. -/
theorem C7_single_quote_counterexample :
    tokenize "'a\\c'" = some [Tokens.Literal "ac"] ∧ ("ac" : String) ≠ "a\\c" :=
  ⟨rfl, by decide⟩

/-- C7 (amended): inside single quotes every character other than a backslash
(and the closing quote itself) is emitted verbatim into the literal; a
backslash, however, is consumed even there — in any state with the escape
flag clear it merely sets the flag and is not emitted. -/
theorem C7_single_quote_amended :
    (∀ c : Char, c ≠ '\\' → c ≠ '\'' →
        tokenize (String.mk [ '\'', 'a', c, 'c', '\'' ]) =
          some [Tokens.Literal (String.mk [ 'a', c, 'c' ])]) ∧
    (∀ (text : List Char) (i : Nat) (st : LexState),
        st.escape_active = false →
        lexStep text i '\\' st = some { st with escape_active := true }) := by
  constructor
  · intro c hc1 hc2
    have hstep := lexStep_single_quoted [ '\'', 'a', c, 'c', '\'' ] 2
      ⟨true, false, false, [ 'a' ], [], 0⟩ c rfl rfl hc1 hc2
    calc tokenize (String.mk [ '\'', 'a', c, 'c', '\'' ])
        = (match lexStep [ '\'', 'a', c, 'c', '\'' ] 2 c
              ⟨true, false, false, [ 'a' ], [], 0⟩ with
           | none => none
           | some st' => tokenizeGo [ '\'', 'a', c, 'c', '\'' ] [ 'c', '\'' ] 3 st') := rfl
      _ = some [Tokens.Literal (String.mk [ 'a', c, 'c' ])] := by rw [hstep]; rfl
  · intro text i st he
    obtain ⟨q, dq, esc, buf, tks, sk⟩ := st
    replace he : esc = false := he
    subst he
    rfl

/-- C7 (witness): the amended statement at the ordinary character `b`. -/
theorem C7_single_quote_amended_witness :
    tokenize (String.mk [ '\'', 'a', 'b', 'c', '\'' ]) =
      some [Tokens.Literal (String.mk [ 'a', 'b', 'c' ])] :=
  C7_single_quote_amended.1 'b' (by decide) (by decide)

/-- C8: the lexer's `'f'` arm recognises the keyword `for` but pushes
`Tokens::If` (`tokens.rs` line 257) instead of the `Tokens::For` that the
rest of the code (here `Tokens::detect`) assigns to the word `for`: on
`for x in y` the emitted sequence starts with the `If` token, and `If ≠ For`. -/
theorem C8_for_keyword_pushes_if :
    Tokens.detect "for" = Tokens.For ∧
    tokenize "for x in y" = some [Tokens.If, Tokens.Literal "x", Tokens.Space,
      Tokens.Literal "in", Tokens.Space, Tokens.Literal "y"] ∧
    Tokens.If ≠ Tokens.For :=
  ⟨rfl, rfl, by decide⟩

/-- C9: `check_keyword` demands at least one character AFTER the keyword
(`text_length < i + keyword.len() + 1` fails it otherwise), so a keyword that
ends the input is emitted as a plain `Literal`; the concrete conjuncts show
each keyword at end-of-input staying literal, and the final conjunct shows
`end ` (with a following character) producing the `End` token. -/
theorem C9_keyword_needs_following_char :
    (∀ (text : List Char) (i : Nat) (keyword : List Char),
        text.length < i + keyword.length + 1 → check_keyword text i keyword = false) ∧
    tokenize "end" = some [Tokens.Literal "end"] ∧
    tokenize "if" = some [Tokens.Literal "if"] ∧
    tokenize "else" = some [Tokens.Literal "else"] ∧
    tokenize "let" = some [Tokens.Literal "let"] ∧
    tokenize "while" = some [Tokens.Literal "while"] ∧
    tokenize "for" = some [Tokens.Literal "for"] ∧
    tokenize "x end" = some [Tokens.Literal "x", Tokens.Space, Tokens.Literal "end"] ∧
    tokenize "end " = some [Tokens.End] := by
  refine ⟨?_, rfl, rfl, rfl, rfl, rfl, rfl, rfl, rfl⟩
  intro text i keyword h
  simp [check_keyword, h]

/-- C9 (witness): the bound check at the very end of the input `end`. -/
theorem C9_keyword_needs_following_char_witness :
    check_keyword [ 'e', 'n', 'd' ] 0 [ 'e', 'n', 'd' ] = false :=
  C9_keyword_needs_following_char.1 [ 'e', 'n', 'd' ] 0 [ 'e', 'n', 'd' ] (by decide)

/-- C10: executing `BreakExpression` while `break_num` is positive decrements
it by exactly one and produces no command, for EVERY operand (the operand is
not evaluated — the equation holds even for unparseable or effectful
operands, and the event log is untouched); and every implemented non-loop,
non-break expression short-circuits under a pending break with the context
completely unchanged, so `BreakExpression` is the only non-loop expression
that modifies `break_num` when short-circuiting. -/
theorem C10_break_short_circuit :
    (∀ (env : Env) (fuel : Nat) (num : Value) (ctx : Context) (log : List Event),
        ctx.break_num > 0 →
        breakExec env (fuel + 1) num ctx log =
          ERes.ok none { ctx with break_num := ctx.break_num - 1 } log) ∧
    (∀ (env : Env) (fuel : Nat) (e : Expression) (ctx : Context) (log : List Event),
        ctx.break_num > 0 → isNonLoopShortCircuit e = true →
        execExpr env (fuel + 2) e ctx log = ERes.ok none ctx log) := by
  constructor
  · intro env fuel num ctx log hb
    simp only [breakExec]
    rw [if_pos hb]
  · intro env fuel e ctx log hb hsc
    cases e
    case JobCommand a => simp [isNonLoopShortCircuit] at hsc
    case Function f => simp [isNonLoopShortCircuit] at hsc
    case ForExpression a b c d e2 => simp [isNonLoopShortCircuit] at hsc
    case WhileExpression c cs => simp [isNonLoopShortCircuit] at hsc
    case BreakExpression num => simp [isNonLoopShortCircuit] at hsc
    case LetExpression k ty v =>
      show letExec env (fuel + 1) k v ctx log = _
      simp only [letExec]
      rw [if_pos hb]
    case Command values =>
      show commandExec env (fuel + 1) values ctx log = _
      simp only [commandExec]
      rw [if_pos hb]
    case IfExpression c cs es =>
      show ifExec env (fuel + 1) c cs es ctx log = _
      simp only [ifExec]
      rw [if_pos hb]
    case RedirectTargetExpression s t =>
      show redirectTargetExec env (fuel + 1) s t ctx log = _
      simp only [redirectTargetExec]
      rw [if_pos hb]
    case FileTargetExpression s t =>
      show fileTargetExec env (fuel + 1) s t ctx log = _
      simp only [fileTargetExec]
      rw [if_pos hb]
    case FileSourceExpression s t =>
      show fileSourceExec env (fuel + 1) s t ctx log = _
      simp only [fileSourceExec]
      rw [if_pos hb]
    case Expressions es =>
      show execList env (fuel + 1) es ctx log = _
      simp only [execList]
      rw [if_pos hb]
    case OrExpression x y =>
      show orExec env (fuel + 1) x y ctx log = _
      simp only [orExec]
      rw [if_pos hb]
    case AndExpression x y =>
      show andExec env (fuel + 1) x y ctx log = _
      simp only [andExec]
      rw [if_pos hb]

/-- C10 (witness): a pending break short-circuits a `BreakExpression` with an
unparseable operand, decrementing 5 to 4. -/
theorem C10_break_short_circuit_witness :
    breakExec envDemo 1 (Value.Literal "boom") { Context.new with break_num := 5 } [] =
      ERes.ok none { Context.new with break_num := 4 } [] :=
  C10_break_short_circuit.1 envDemo 0 (Value.Literal "boom")
    { Context.new with break_num := 5 } [] (by decide)

end Rush
